import Mathlib

/-!
Shallow embedding of the levante-firebase-functions administration-to-assignment
synchronization engine, and proofs of the specification claims about it.

The Firestore database is modelled as a `Store` of association lists keyed by
document id.  Firestore transactions are modelled with commit semantics: a
transaction's buffered writes are either applied atomically or, when the
transaction fails, discarded entirely (while side effects on local JavaScript
variables made inside the transaction callback persist, as they do at a real
commit failure).  Injected faults (`failTx` parameters) name the index of the
transaction whose commit fails.

Functions translated from the repository's sources keep their source names
(`updateAssignmentsForOrgChunkHandler`, `createAssignments`,
`updateAssignments`, `upsertAdministrationHandler`,
`syncAssignmentsOnAdministrationUpdateEventHandler`, `upsertOrg` for the
source's `_upsertOrg`).  Helper modules of the repository that are not part of
the provided sources (assignment-utils, org-utils, administration-utils,
sync-administrations, on-assignment-updates) are modelled from the
specification; each such definition carries a doc comment starting with
`Modelled from the spec:`.
-/

namespace LevanteSync

/-! ## Association-list primitives -/

/-- Look up the document stored under key `k` (first match). -/
def lookupIn {α : Type} : List (String × α) → String → Option α
  | [], _ => none
  | p :: rest, k => if p.1 = k then some p.2 else lookupIn rest k

/-- Rewrite every entry's value through `h`, which may inspect the key.
All bulk document updates are expressed through this map. -/
def mapEntries {α : Type} (l : List (String × α)) (h : String → α → α) :
    List (String × α) :=
  l.map (fun p => (p.1, h p.1 p.2))

/-- Delete every document stored under key `k`. -/
def removeEntry {α : Type} (l : List (String × α)) (k : String) :
    List (String × α) :=
  l.filter (fun p => !(p.1 == k))

/-- Update the document under key `k` with `f`; other entries are unchanged. -/
def updateEntry {α : Type} (l : List (String × α)) (k : String) (f : α → α) :
    List (String × α) :=
  mapEntries l (fun k' v => if k' = k then f v else v)

/-- Structural worker for `chunkList`; the fuel bounds the recursion depth and
any fuel of at least the list's length yields all chunks. -/
def chunkListGo {α : Type} (n : Nat) : Nat → List α → List (List α)
  | 0, _ => []
  | _ + 1, [] => []
  | fuel + 1, x :: xs =>
    (x :: xs.take (n - 1)) :: chunkListGo n fuel (xs.drop (n - 1))

/-- Split a list into consecutive chunks; every chunk except possibly the last
has `n` elements (mirrors lodash `_chunk`). -/
def chunkList {α : Type} (n : Nat) (l : List α) : List (List α) :=
  chunkListGo n l.length l

/-- lodash `_difference`: the elements of `l₁` that do not occur in `l₂`,
order and multiplicity of `l₁` preserved. -/
def listDiff (l₁ l₂ : List String) : List String :=
  l₁.filter (fun x => !(l₂.contains x))

/-! ## Data model -/

/-- The four per-kind organizational-unit id lists (`IOrgsList` with the
`ORG_NAMES` fields `districts`, `schools`, `classes`, `groups`). -/
structure OrgsList where
  districts : List String
  schools : List String
  classes : List String
  groups : List String
deriving DecidableEq, Repr

/-- The empty target set. -/
def OrgsList.empty : OrgsList := ⟨[], [], [], []⟩

/-- Total number of unit ids over the four kinds. -/
def OrgsList.numOrgs (o : OrgsList) : Nat :=
  o.districts.length + o.schools.length + o.classes.length + o.groups.length

/-- Whether two target sets share a unit id in some kind (used for membership:
a user belongs to an org chunk when their current membership meets it). -/
def orgsIntersect (a b : OrgsList) : Bool :=
  a.districts.any (fun i => b.districts.contains i) ||
  a.schools.any (fun i => b.schools.contains i) ||
  a.classes.any (fun i => b.classes.contains i) ||
  a.groups.any (fun i => b.groups.contains i)

/-- A per-user assignment sub-record (`users/{uid}/assignments/{administrationId}`):
a copy of the campaign's assessment list plus independent per-user progress. -/
structure AssignmentDoc where
  assessments : List String
  progress : Nat
deriving DecidableEq, Repr

/-- A user document: user type, archived flag, current org membership per kind,
the assignment sub-collection keyed by administration id, the denormalized
"assigned administration ids" index field, and (for admins) the
`adminData.administrationsCreated` index. -/
structure UserDoc where
  userType : String
  archived : Bool
  orgs : OrgsList
  assignments : List (String × AssignmentDoc)
  assignedIndex : List String
  administrationsCreated : List String
deriving DecidableEq, Repr

/-- An administration (campaign) document. -/
structure AdminDoc where
  name : String
  publicName : String
  normalizedName : String
  createdBy : Option String
  creatorName : String
  orgs : OrgsList
  dateOpened : Int
  dateClosed : Int
  assessments : List String
  sequential : Bool
  siteId : Option String
  statsAssigned : Int
deriving DecidableEq, Repr

/-- An organizational-unit document (one shape for the four collections;
fields not applicable to a kind stay `none`/`[]`, like absent Firestore
fields). -/
structure OrgDoc where
  name : Option String
  archived : Bool
  createdBy : Option String
  parentOrgId : Option String
  parentOrgType : Option String
  schoolId : Option String
  districtId : Option String
  subGroups : List String
  schools : List String
  classes : List String
deriving DecidableEq, Repr

/-- The `userClaims/{uid}` document's `claims` field. -/
structure UserClaims where
  admin : Bool
  superAdmin : Bool
deriving DecidableEq, Repr

/-- The backing store: the collections the synchronization engine touches. -/
structure Store where
  administrations : List (String × AdminDoc)
  users : List (String × UserDoc)
  userClaims : List (String × UserClaims)
  districts : List (String × OrgDoc)
  schools : List (String × OrgDoc)
  classes : List (String × OrgDoc)
  groups : List (String × OrgDoc)
deriving DecidableEq, Repr

/-- Maximum number of documents mutated inside one Firestore transaction
(`MAX_TRANSACTIONS` in utils). -/
def MAX_TRANSACTIONS : Nat := 100

/-- Look up an administration document. -/
def lookupAdmin (s : Store) (aid : String) : Option AdminDoc :=
  lookupIn s.administrations aid

/-- Look up a user document. -/
def lookupUser (s : Store) (uid : String) : Option UserDoc :=
  lookupIn s.users uid

/-- Whether the user document holds an assignment sub-record for `aid`. -/
def assignmentExists (u : UserDoc) (aid : String) : Bool :=
  u.assignments.any (fun p => p.1 == aid)

/-- Whether the user stored under `uid` holds an assignment sub-record for
`aid` (false when there is no such user). -/
def hasAssign (s : Store) (uid aid : String) : Bool :=
  match lookupUser s uid with
  | some u => assignmentExists u aid
  | none => false

/-- The administration's four org-id list fields
(`_pick(data, ORG_NAMES)`). -/
def adminOrgs (d : AdminDoc) : OrgsList := d.orgs

/-! ## Spec-modelled helpers (modules not in the provided sources) -/

/-- Modelled from the spec: `usersOf` / `getUsersFromOrgs` (org-utils, not in
the provided sources): membership lookups per kind against users' current
membership fields; archived users are excluded unless `includeArchived` is
set. -/
def getUsersFromOrgsList (users : List (String × UserDoc)) (orgs : OrgsList)
    (includeArchived : Bool) : List String :=
  (users.filter (fun p =>
    orgsIntersect p.2.orgs orgs && (includeArchived || !p.2.archived))).map
    (fun p => p.1)

/-- Modelled from the spec: `getUsersFromOrgs` applied to the store's user
collection. -/
def getUsersFromOrgs (s : Store) (orgs : OrgsList) (includeArchived : Bool) :
    List String :=
  getUsersFromOrgsList s.users orgs includeArchived

/-- A fresh assignment sub-record copying the campaign's assessment list,
with per-user progress at its initial state. -/
def newAssignment (d : AdminDoc) : AssignmentDoc :=
  { assessments := d.assessments, progress := 0 }

/-- Modelled from the spec: the per-user effect of Add mode — create the
assignment sub-record idempotently (if one already exists for this
administration id, leave it untouched rather than duplicating) and add the
administration id to the user's denormalized assigned-ids index
(array-union semantics). -/
def addAssignmentToUser (aid : String) (d : AdminDoc) (u : UserDoc) : UserDoc :=
  { u with
    assignments :=
      if assignmentExists u aid then u.assignments
      else u.assignments ++ [(aid, newAssignment d)]
    assignedIndex :=
      if u.assignedIndex.contains aid then u.assignedIndex
      else u.assignedIndex ++ [aid] }

/-- Modelled from the spec: `addAssignmentToUsers` (assignment-utils, not in
the provided sources): apply the Add-mode per-user effect to every listed
user. -/
def addAssignmentToUsers (s : Store) (userIds : List String) (aid : String)
    (d : AdminDoc) : Store :=
  { s with
    users := mapEntries s.users (fun k u =>
      if k ∈ userIds then addAssignmentToUser aid d u else u) }

/-- Modelled from the spec: the per-user effect of Update mode — merge the
campaign's current assessment/definition fields into the assignment
sub-record without touching per-user progress fields (merge semantics create
the sub-record when absent). -/
def mergeAssignmentForUser (aid : String) (d : AdminDoc) (u : UserDoc) :
    UserDoc :=
  { u with
    assignments :=
      if assignmentExists u aid then
        u.assignments.map (fun p =>
          if p.1 = aid then (p.1, { p.2 with assessments := d.assessments })
          else p)
      else u.assignments ++ [(aid, newAssignment d)] }

/-- Modelled from the spec: `updateAssignmentForUsers` (assignment-utils, not
in the provided sources): apply the Update-mode per-user effect to every
listed user. -/
def updateAssignmentForUsers (s : Store) (userIds : List String) (aid : String)
    (d : AdminDoc) : Store :=
  { s with
    users := mapEntries s.users (fun k u =>
      if k ∈ userIds then mergeAssignmentForUser aid d u else u) }

/-- Modelled from the spec: the per-user effect of Remove mode and of
compensating rollback — delete the assignment sub-records for the given
administration ids and strip those ids from the user's denormalized
assigned-ids index (tolerant of already-absent records). -/
def stripAssignments (aids : List String) (u : UserDoc) : UserDoc :=
  { u with
    assignments := u.assignments.filter (fun p => !(aids.contains p.1))
    assignedIndex := u.assignedIndex.filter (fun i => !(aids.contains i)) }

/-- Modelled from the spec: `removeOrgsFromAssignments` (assignment-utils, not
in the provided sources): for every listed user, delete the assignment
sub-records for the given administration ids and strip them from the user's
index field.  The removed-orgs argument is kept for signature fidelity. -/
def removeOrgsFromAssignments (s : Store) (userIds : List String)
    (administrationIds : List String) (_removedOrgs : OrgsList) : Store :=
  { s with
    users := mapEntries s.users (fun k u =>
      if k ∈ userIds then stripAssignments administrationIds u else u) }

/-- Modelled from the spec: `updateAdministrationStatsForOrgChunk`
(on-assignment-updates, not in the provided sources): a single atomic
increment of the administration's assigned-user counter per successful
Add-mode chunk — never a recount.  A missing administration document makes
the increment a no-op. -/
def updateAdministrationStatsForOrgChunk (s : Store) (aid : String)
    (_orgChunk : OrgsList) (_d : AdminDoc) (count : Nat) : Store :=
  { s with
    administrations := updateEntry s.administrations aid (fun a =>
      { a with statsAssigned := a.statsAssigned + count }) }

/-- Modelled from the spec: `rollbackAssignmentCreation` (assignment-utils,
not in the provided sources): delete the created assignment sub-records for
the listed users, strip the administration id from their index fields, and —
when the org chunk and administration data are provided (`withStats`) —
decrement the administration's stats counter by the same amount. -/
def rollbackAssignmentCreation (s : Store) (userIds : List String)
    (aid : String) (withStats : Bool) : Store :=
  let s' : Store :=
    { s with
      users := mapEntries s.users (fun k u =>
        if k ∈ userIds then stripAssignments [aid] u else u) }
  if withStats then
    { s' with
      administrations := updateEntry s'.administrations aid (fun a =>
        { a with statsAssigned := a.statsAssigned - userIds.length }) }
  else s'

/-- Modelled from the spec: `rollbackAdministrationCreation`
(assignment-utils, not in the provided sources): delete the administration
document and remove its id from the creator's
`adminData.administrationsCreated` index (tolerant of an already-absent
document). -/
def rollbackAdministrationCreation (s : Store) (aid : String)
    (creatorUid : String) : Store :=
  { s with
    administrations := removeEntry s.administrations aid
    users := updateEntry s.users creatorUid (fun u =>
      { u with
        administrationsCreated :=
          u.administrationsCreated.filter (fun i => !(i == aid)) }) }

/-- Whether a unit id has an existing document in the collection for its
kind. -/
def orgKindExists (coll : List (String × OrgDoc)) (i : String) : Bool :=
  (lookupIn coll i).isSome

/-- Modelled from the spec: `getOnlyExistingOrgs` (org-utils, not in the
provided sources): drop unit ids whose documents no longer exist (dangling
references are silently excluded via a batched existence read). -/
def getOnlyExistingOrgs (s : Store) (orgs : OrgsList) : OrgsList :=
  { districts := orgs.districts.filter (orgKindExists s.districts)
    schools := orgs.schools.filter (orgKindExists s.schools)
    classes := orgs.classes.filter (orgKindExists s.classes)
    groups := orgs.groups.filter (orgKindExists s.groups) }

/-- Whether a unit id exists and passes the archived filter. -/
def orgKindOk (coll : List (String × OrgDoc)) (includeArchived : Bool)
    (i : String) : Bool :=
  match lookupIn coll i with
  | some d => includeArchived || !d.archived
  | none => false

/-- Modelled from the spec: `getExhaustiveOrgs` (org-utils, not in the
provided sources): the exhaustive closure of the supplied target set under
the containment pointers site→schools, school→classes and site→cohorts.
Since the containment edges are stratified by kind, iterating the child
lists to a fixpoint amounts to one pass per kind; dangling or filtered
references are silently excluded. -/
def getExhaustiveOrgs (s : Store) (orgs : OrgsList) (includeArchived : Bool) :
    OrgsList :=
  let districts := orgs.districts.filter (orgKindOk s.districts includeArchived)
  let schoolsFromDistricts := districts.foldr (fun d acc =>
    (match lookupIn s.districts d with
     | some dd => dd.schools
     | none => []) ++ acc) []
  let groupsFromDistricts := districts.foldr (fun d acc =>
    (match lookupIn s.districts d with
     | some dd => dd.subGroups
     | none => []) ++ acc) []
  let schools := (orgs.schools ++ schoolsFromDistricts).filter
    (orgKindOk s.schools includeArchived)
  let classesFromSchools := schools.foldr (fun c acc =>
    (match lookupIn s.schools c with
     | some sd => sd.classes
     | none => []) ++ acc) []
  let classes := (orgs.classes ++ classesFromSchools).filter
    (orgKindOk s.classes includeArchived)
  let groups := (orgs.groups ++ groupsFromDistricts).filter
    (orgKindOk s.groups includeArchived)
  { districts := districts, schools := schools, classes := classes,
    groups := groups }

/-- Modelled from the spec: `chunkOrgs` (org-utils, not in the provided
sources): partition a target set into fixed-size unit-kind chunks of at most
`n` unit ids each, before user resolution. -/
def chunkOrgs (orgs : OrgsList) (n : Nat) : List OrgsList :=
  (chunkList n orgs.districts).map (fun c => { OrgsList.empty with districts := c })
    ++ (chunkList n orgs.schools).map (fun c => { OrgsList.empty with schools := c })
    ++ (chunkList n orgs.classes).map (fun c => { OrgsList.empty with classes := c })
    ++ (chunkList n orgs.groups).map (fun c => { OrgsList.empty with groups := c })

/-- Modelled from the spec: `standardizeAdministrationOrgs`
(administration-utils, not in the provided sources): make the
administration's stored target set the exhaustive closure of the supplied
units, write the standardized lists back to the administration document, and
return the standardized (`minimalOrgs`) set used for chunking. -/
def standardizeAdministrationOrgs (s : Store) (aid : String)
    (currData : AdminDoc) : Store × OrgsList :=
  let minimalOrgs := getExhaustiveOrgs s (adminOrgs currData) false
  ({ s with
     administrations := updateEntry s.administrations aid (fun a =>
       { a with orgs := minimalOrgs }) },
   minimalOrgs)

/-! ## The diff kernel (sync-assignments.ts / permission-helpers.ts) -/

/-- The removed target set: per kind, the previous ids minus the current ids
(lodash `_difference(prev[kind], curr[kind])`, as computed both by
`syncAssignmentsOnUserUpdateEventHandler` and by `updateAssignments`). -/
def computedRemovedOrgs (prev curr : OrgsList) : OrgsList :=
  { districts := listDiff prev.districts curr.districts
    schools := listDiff prev.schools curr.schools
    classes := listDiff prev.classes curr.classes
    groups := listDiff prev.groups curr.groups }

/-- The added target set: per kind, the current ids minus the previous ids
(lodash `_difference(curr[kind], prev[kind])`, as computed by
`syncAssignmentsOnUserUpdateEventHandler`). -/
def computedAddedOrgs (prev curr : OrgsList) : OrgsList :=
  computedRemovedOrgs curr prev

/-! ## The chunked assignment writer (sync-assignments.ts) -/

/-- The writer's mode (`"update" | "add"`; the invalid-mode throw of the
source is made unrepresentable by the type). -/
inductive SyncMode where
  | update : SyncMode
  | add : SyncMode
deriving DecidableEq, Repr

/-- The chunk handler's return value.  `error` records which transaction's
commit failed (the original write error). -/
structure ChunkResult where
  success : Bool
  userIds : List String
  error : Option Nat
deriving DecidableEq, Repr

/-- One transaction of the chunk handler: the user ids pushed into the local
`createdUserIds` array inside the transaction callback, and the buffered
writes committed if the transaction succeeds. -/
def TxStep : Type := List String × (Store → Store)

/-- The sequence of transactions run by `updateAssignmentsForOrgChunkHandler`
once the chunk's users are resolved: a single transaction when the user
count fits in `MAX_TRANSACTIONS`, otherwise a read-only first transaction
followed by one transaction per user sub-chunk.  Only Add mode pushes user
ids into `createdUserIds`. -/
def chunkTxSteps (aid : String) (d : AdminDoc) (mode : SyncMode)
    (users : List String) : List TxStep :=
  if users.length = 0 then [([], fun st => st)]
  else if users.length ≤ MAX_TRANSACTIONS then
    match mode with
    | .update => [([], fun st => updateAssignmentForUsers st users aid d)]
    | .add => [(users, fun st => addAssignmentToUsers st users aid d)]
  else
    ([], fun st => st) ::
      (chunkList MAX_TRANSACTIONS users).map (fun c =>
        match mode with
        | .update => (([] : List String),
            fun st => updateAssignmentForUsers st c aid d)
        | .add => (c, fun st => addAssignmentToUsers st c aid d))

/-- Run the transactions in order.  A transaction whose index equals `failTx`
fails at commit: its buffered writes are discarded while the pushes already
made into the local `createdUserIds` array persist, and the error (the
failing index) is raised. -/
def runTxSteps : List TxStep → Nat → Option Nat → Store → List String →
    Store × List String × Option Nat
  | [], _, _, s, ids => (s, ids, none)
  | step :: rest, k, failTx, s, ids =>
    if failTx = some k then (s, ids ++ step.1, some k)
    else runTxSteps rest (k + 1) failTx (step.2 s) (ids ++ step.1)

/-- `updateAssignmentsForOrgChunkHandler` (sync-assignments.ts): resolve the
chunk's members with `includeArchived := false`, apply the per-user writes
across as many transactions as needed, then (Add mode, at least one user
assigned) update the administration stats.  On any failure, attempt the
internal rollback of this chunk's created assignments — a rollback failure
(`rollbackFails`) is logged only — and return `success := false` with the
accumulated `createdUserIds` and the original error. -/
def updateAssignmentsForOrgChunkHandler (s : Store) (administrationId : String)
    (administrationData : AdminDoc) (orgChunk : OrgsList) (mode : SyncMode)
    (failTx : Option Nat) (rollbackFails : Bool) : Store × ChunkResult :=
  let usersToUpdate := getUsersFromOrgs s orgChunk false
  let steps := chunkTxSteps administrationId administrationData mode usersToUpdate
  match runTxSteps steps 0 failTx s [] with
  | (s1, createdUserIds, some k) =>
    let s2 :=
      if mode = SyncMode.add ∧ 0 < createdUserIds.length ∧ ¬rollbackFails then
        rollbackAssignmentCreation s1 createdUserIds administrationId true
      else s1
    (s2, { success := false, userIds := createdUserIds, error := some k })
  | (s1, createdUserIds, none) =>
    if mode = SyncMode.add ∧ 0 < createdUserIds.length then
      if failTx = some steps.length then
        let s2 :=
          if ¬rollbackFails then
            rollbackAssignmentCreation s1 createdUserIds administrationId true
          else s1
        (s2, { success := false, userIds := createdUserIds,
               error := some steps.length })
      else
        (updateAdministrationStatsForOrgChunk s1 administrationId orgChunk
           administrationData createdUserIds.length,
         { success := true, userIds := createdUserIds, error := none })
    else (s1, { success := true, userIds := createdUserIds, error := none })

/-! ## Synchronous assignment sync (permission-helpers.ts) -/

/-- The rollback sequence of a failed `createAssignments` chunk: roll back all
previously created assignments, then (brand-new administration with a
creator) roll back the administration document; the error then thrown is
caught by the surrounding catch block, which repeats both rollbacks before
rethrowing. -/
def createAssignmentsFailureCleanup (s : Store) (administrationId : String)
    (creatorUid : Option String) (isNewAdministration : Bool)
    (allCreatedUserIds : List String) : Store :=
  let s2 :=
    if 0 < allCreatedUserIds.length then
      rollbackAssignmentCreation s allCreatedUserIds administrationId false
    else s
  let s3 :=
    match creatorUid with
    | some cu =>
      if isNewAdministration then
        rollbackAdministrationCreation s2 administrationId cu
      else s2
    | none => s2
  let s4 :=
    if 0 < allCreatedUserIds.length then
      rollbackAssignmentCreation s3 allCreatedUserIds administrationId false
    else s3
  match creatorUid with
  | some cu =>
    if isNewAdministration then
      rollbackAdministrationCreation s4 administrationId cu
    else s4
  | none => s4

/-- The chunk loop of `createAssignments`: process the org chunks in order in
Add mode, accumulating every successful chunk's user ids; a failing chunk
triggers the failure cleanup.  `failTxAt i` injects the failing
transaction index for chunk `i`; `rollbackFailsAt i` makes chunk `i`'s
internal rollback fail. -/
def createAssignmentsLoop (administrationId : String) (currData : AdminDoc)
    (creatorUid : Option String) (isNewAdministration : Bool)
    (failTxAt : Nat → Option Nat) (rollbackFailsAt : Nat → Bool) :
    List OrgsList → Nat → Store → List String → Store × Bool
  | [], _, s, _ => (s, true)
  | orgChunk :: rest, i, s, allCreatedUserIds =>
    let r := updateAssignmentsForOrgChunkHandler s administrationId currData
      orgChunk SyncMode.add (failTxAt i) (rollbackFailsAt i)
    if r.2.success then
      createAssignmentsLoop administrationId currData creatorUid
        isNewAdministration failTxAt rollbackFailsAt rest (i + 1) r.1
        (allCreatedUserIds ++ r.2.userIds)
    else
      (createAssignmentsFailureCleanup r.1 administrationId creatorUid
        isNewAdministration allCreatedUserIds, false)

/-- `createAssignments` (permission-helpers.ts): standardize the
administration's orgs, chunk them, and process every chunk synchronously in
Add mode with full rollback on failure.  Returns the final store and whether
all chunks succeeded (a `false` corresponds to the thrown error). -/
def createAssignments (s : Store) (administrationId : String)
    (currData : AdminDoc) (creatorUid : Option String)
    (isNewAdministration : Bool) (failTxAt : Nat → Option Nat)
    (rollbackFailsAt : Nat → Bool) : Store × Bool :=
  let std := standardizeAdministrationOrgs s administrationId currData
  createAssignmentsLoop administrationId currData creatorUid
    isNewAdministration failTxAt rollbackFailsAt (chunkOrgs std.2 100) 0 std.1
    []

/-- The chunk loop of `updateAssignments`: process the org chunks in order in
Update mode; the first failing chunk aborts the loop with an error and no
compensation of earlier chunks. -/
def updateAssignmentsLoop (administrationId : String) (currData : AdminDoc)
    (failTxAt : Nat → Option Nat) (rollbackFailsAt : Nat → Bool) :
    List OrgsList → Nat → Store → Store × Bool
  | [], _, s => (s, true)
  | orgChunk :: rest, i, s =>
    let r := updateAssignmentsForOrgChunkHandler s administrationId currData
      orgChunk SyncMode.update (failTxAt i) (rollbackFailsAt i)
    if r.2.success then
      updateAssignmentsLoop administrationId currData failTxAt rollbackFailsAt
        rest (i + 1) r.1
    else (r.1, false)

/-- `updateAssignments` (permission-helpers.ts): compute the removed org set
from the previous and current administration data; resolve the removed orgs
to their existing, exhaustive closure and remove the affected users'
assignments (archived users included), chunking over `MAX_TRANSACTIONS` when
needed; then standardize the orgs and run the Update-mode chunk loop.
Returns the final store and whether the sync completed. -/
def updateAssignments (s : Store) (administrationId : String)
    (prevData currData : AdminDoc) (failTxAt : Nat → Option Nat)
    (rollbackFailsAt : Nat → Bool) : Store × Bool :=
  let prevOrgs := adminOrgs prevData
  let currOrgs := adminOrgs currData
  let removedOrgs := computedRemovedOrgs prevOrgs currOrgs
  let s1 :=
    if 0 < removedOrgs.numOrgs then
      let removedExistingOrgs := getOnlyExistingOrgs s removedOrgs
      let removedExhaustiveOrgs := getExhaustiveOrgs s removedExistingOrgs true
      let usersToRemove := getUsersFromOrgs s removedExhaustiveOrgs true
      if usersToRemove.length ≤ MAX_TRANSACTIONS then
        removeOrgsFromAssignments s usersToRemove [administrationId]
          removedExhaustiveOrgs
      else
        (chunkList MAX_TRANSACTIONS usersToRemove).foldl
          (fun st c => removeOrgsFromAssignments st c [administrationId]
            removedExhaustiveOrgs) s
    else s
  let std := standardizeAdministrationOrgs s1 administrationId currData
  updateAssignmentsLoop administrationId currData failTxAt rollbackFailsAt
    (chunkOrgs std.2 100) 0 std.1

/-! ## The upsert-administration operation (permission-helpers.ts) -/

/-- The typed error codes surfaced by the operations (`HttpsError` codes). -/
inductive ErrCode where
  | invalidArgument : ErrCode
  | notFound : ErrCode
  | permissionDenied : ErrCode
  | internal : ErrCode
deriving DecidableEq, Repr

/-- The `upsertAdministration` request payload (`UpsertAdministrationData`);
dates are modelled as already-parsed integers, with `none` for a missing
field. -/
structure UpsertData where
  name : String
  publicName : Option String
  normalizedName : String
  assessments : Option (List String)
  dateOpen : Option Int
  dateClose : Option Int
  sequential : Bool
  orgs : OrgsList
  tags : List String
  administrationId : Option String
  creatorName : String
deriving DecidableEq, Repr

/-- The result surfaced to the caller. -/
inductive UpsertResult where
  | ok : String → UpsertResult
  | err : ErrCode → UpsertResult
deriving DecidableEq, Repr

/-- Final store, surfaced result, and an instrumentation flag recording
whether the synchronous assignment-sync step reported failure (it does not
influence the computation). -/
structure UpsertOutcome where
  store : Store
  result : UpsertResult
  syncFailed : Bool
deriving DecidableEq, Repr

/-- The authorization check of `upsertAdministrationHandler`: the caller's
`userClaims` document must exist and carry `admin` or `super_admin`. -/
def authCheck (s : Store) (uid : String) : Option ErrCode :=
  match lookupIn s.userClaims uid with
  | none => some ErrCode.permissionDenied
  | some c =>
    if c.admin = true ∨ c.superAdmin = true then none
    else some ErrCode.permissionDenied

/-- The input validation of `upsertAdministrationHandler`: name, assessments
and both dates must be present, and the close date must not precede the open
date.  Returns the parsed `(dateOpened, dateClosed)` pair. -/
def validateInput (data : UpsertData) : Except ErrCode (Int × Int) :=
  match data.assessments, data.dateOpen, data.dateClose with
  | some _, some o, some c =>
    if data.name = "" then Except.error ErrCode.invalidArgument
    else if c < o then Except.error ErrCode.invalidArgument
    else Except.ok (o, c)
  | _, _, _ => Except.error ErrCode.invalidArgument

/-- The create-path site-id resolution: the first explicit district, else the
parent site obtained from the first targeted group (`parentOrgId`), class
(`districtId`) or school (`districtId`); failure to resolve is an
invalid-argument error. -/
def resolveSiteId (s : Store) (orgs : OrgsList) : Except ErrCode String :=
  match orgs.districts.head? with
  | some d => Except.ok d
  | none =>
    match orgs.groups.head? with
    | some groupId =>
      match lookupIn s.groups groupId with
      | none => Except.error ErrCode.invalidArgument
      | some g =>
        match g.parentOrgId with
        | some p => Except.ok p
        | none => Except.error ErrCode.invalidArgument
    | none =>
      match orgs.classes.head? with
      | some classId =>
        match lookupIn s.classes classId with
        | none => Except.error ErrCode.invalidArgument
        | some c =>
          match c.districtId with
          | some p => Except.ok p
          | none => Except.error ErrCode.invalidArgument
      | none =>
        match orgs.schools.head? with
        | some schoolId =>
          match lookupIn s.schools schoolId with
          | none => Except.error ErrCode.invalidArgument
          | some c =>
            match c.districtId with
            | some p => Except.ok p
            | none => Except.error ErrCode.invalidArgument
        | none => Except.error ErrCode.invalidArgument

/-- The update-path field write: overwrite the mutable administration fields
with the request's values (`createdBy`, `dateCreated` and the stats counter
are not updated). -/
def applyAdministrationUpdate (old : AdminDoc) (data : UpsertData)
    (dOpen dClose : Int) : AdminDoc :=
  { old with
    name := data.name
    publicName := data.publicName.getD data.name
    normalizedName := data.normalizedName
    orgs := data.orgs
    dateOpened := dOpen
    dateClosed := dClose
    assessments := data.assessments.getD []
    sequential := data.sequential }

/-- The create-path document: a fresh administration created by the caller. -/
def newAdministrationDoc (caller : String) (data : UpsertData)
    (dOpen dClose : Int) (siteId : String) : AdminDoc :=
  { name := data.name
    publicName := data.publicName.getD data.name
    normalizedName := data.normalizedName
    createdBy := some caller
    creatorName := data.creatorName
    orgs := data.orgs
    dateOpened := dOpen
    dateClosed := dClose
    assessments := data.assessments.getD []
    sequential := data.sequential
    siteId := some siteId
    statsAssigned := 0 }

/-- The Firestore transaction of `upsertAdministrationHandler`: on the update
path, require the administration to exist and update its fields; on the
create path, resolve the site id, create the document under the fresh
`newDocId`, and add its id to the creator's `administrationsCreated` index
when the creator's user document exists. -/
def upsertTransaction (s : Store) (caller : String) (data : UpsertData)
    (dOpen dClose : Int) (newDocId : String) :
    Except ErrCode (Store × String) :=
  match data.administrationId with
  | some aid =>
    match lookupAdmin s aid with
    | none => Except.error ErrCode.notFound
    | some _ =>
      Except.ok
        ({ s with
           administrations := updateEntry s.administrations aid (fun old =>
             applyAdministrationUpdate old data dOpen dClose) },
         aid)
  | none =>
    match resolveSiteId s data.orgs with
    | Except.error e => Except.error e
    | Except.ok siteId =>
      let doc := newAdministrationDoc caller data dOpen dClose siteId
      let s1 :=
        { s with administrations := s.administrations ++ [(newDocId, doc)] }
      let s2 :=
        match lookupUser s1 caller with
        | some _ =>
          { s1 with
            users := updateEntry s1.users caller (fun u =>
              { u with
                administrationsCreated :=
                  if u.administrationsCreated.contains newDocId then
                    u.administrationsCreated
                  else u.administrationsCreated ++ [newDocId] }) }
        | none => s1
      Except.ok (s2, newDocId)

/-- `upsertAdministrationHandler` (permission-helpers.ts): authorization,
validation, the upsert transaction, then the synchronous assignment sync.
A failing sync is rethrown (surfacing as `internal`) only when the request
carried no administration id (a brand-new administration); on the update
path the failure is logged and the operation still returns ok. -/
def upsertAdministrationHandler (s : Store) (callerAdminUid : String)
    (data : UpsertData) (newDocId : String) (failTxAt : Nat → Option Nat)
    (rollbackFailsAt : Nat → Bool) : UpsertOutcome :=
  match authCheck s callerAdminUid with
  | some e => { store := s, result := UpsertResult.err e, syncFailed := false }
  | none =>
  match validateInput data with
  | Except.error e =>
    { store := s, result := UpsertResult.err e, syncFailed := false }
  | Except.ok (dOpen, dClose) =>
  let prevData := data.administrationId.bind (fun aid => lookupAdmin s aid)
  match upsertTransaction s callerAdminUid data dOpen dClose newDocId with
  | Except.error e =>
    { store := s, result := UpsertResult.err e, syncFailed := false }
  | Except.ok (sTx, newAdministrationId) =>
    match lookupAdmin sTx newAdministrationId with
    | none =>
      -- administration not found after creation: sync skipped
      { store := sTx, result := UpsertResult.ok newAdministrationId,
        syncFailed := false }
    | some administrationData =>
      if data.administrationId.isNone then
        match administrationData.createdBy with
        | none =>
          -- missing creator: HttpsError internal, rethrown on the create path
          { store := sTx, result := UpsertResult.err ErrCode.internal,
            syncFailed := false }
        | some cu =>
          let r := createAssignments sTx newAdministrationId
            administrationData (some cu) true failTxAt rollbackFailsAt
          if r.2 then
            { store := r.1, result := UpsertResult.ok newAdministrationId,
              syncFailed := false }
          else
            -- thrown by createAssignments, rethrown (create path), wrapped internal
            { store := r.1, result := UpsertResult.err ErrCode.internal,
              syncFailed := true }
      else
        match prevData with
        | some prev =>
          let r := updateAssignments sTx newAdministrationId prev
            administrationData failTxAt rollbackFailsAt
          if r.2 then
            { store := r.1, result := UpsertResult.ok newAdministrationId,
              syncFailed := false }
          else
            -- sync error logged only; the update still returns ok
            { store := r.1, result := UpsertResult.ok newAdministrationId,
              syncFailed := true }
        | none =>
          match administrationData.createdBy with
          | none =>
            -- missing creator: internal thrown, then swallowed (not a new administration)
            { store := sTx, result := UpsertResult.ok newAdministrationId,
              syncFailed := false }
          | some cu =>
            let r := createAssignments sTx newAdministrationId
              administrationData (some cu) true failTxAt rollbackFailsAt
            if r.2 then
              { store := r.1, result := UpsertResult.ok newAdministrationId,
                syncFailed := false }
            else
              -- error swallowed: the request carried an administration id
              { store := r.1, result := UpsertResult.ok newAdministrationId,
                syncFailed := true }

/-! ## The change-triggered entry point (sync-assignments.ts) -/

/-- Modelled from the spec: `processNewAdministration` (sync-administrations,
not in the provided sources): creation treats the entire current target set
as added — standardize the orgs and apply every chunk in Add mode. -/
def processNewAdministration (s : Store) (administrationId : String)
    (currData : AdminDoc) : Store :=
  let std := standardizeAdministrationOrgs s administrationId currData
  (chunkOrgs std.2 100).foldl
    (fun st c =>
      (updateAssignmentsForOrgChunkHandler st administrationId currData c
        SyncMode.add none false).1)
    std.1

/-- Modelled from the spec: `processModifiedAdministration`
(sync-administrations, not in the provided sources): the triggered update
path re-derives its removed/added sets from the before/after snapshots and
runs the same remove-then-update pipeline as the synchronous path. -/
def processModifiedAdministration (s : Store) (administrationId : String)
    (prevData currData : AdminDoc) : Store :=
  (updateAssignments s administrationId prevData currData (fun _ => none)
    (fun _ => false)).1

/-- Modelled from the spec: `processRemovedAdministration`
(sync-administrations, not in the provided sources): deletion treats the
entire stored target set as removed — resolve its users with
`includeArchived := true` and delete their assignment sub-records and index
entries for this administration. -/
def processRemovedAdministration (s : Store) (administrationId : String)
    (prevOrgs : OrgsList) : Store :=
  let usersToUnassign := getUsersFromOrgs s prevOrgs true
  removeOrgsFromAssignments s usersToUnassign [administrationId] prevOrgs

/-- The deletion path's creator-index cleanup: remove the administration id
from the creator's `adminData.administrationsCreated` array (array-remove;
a missing creator document leaves the store unchanged). -/
def removeAdministrationFromCreator (s : Store) (createdBy : String)
    (administrationId : String) : Store :=
  { s with
    users := updateEntry s.users createdBy (fun u =>
      { u with
        administrationsCreated :=
          u.administrationsCreated.filter (fun i =>
            !(i == administrationId)) }) }

/-- Which path the administration trigger handler took. -/
inductive TriggerPath where
  | okNoData : TriggerPath
  | created : TriggerPath
  | removed : TriggerPath
  | modified : TriggerPath
deriving DecidableEq, Repr

/-- `syncAssignmentsOnAdministrationUpdateEventHandler`
(sync-assignments.ts): dispatch on the before/after snapshots.  Both absent:
return ok.  After absent: deletion — first remove the administration id from
the creator's index (when a `createdBy` is stored), then remove the previous
orgs' assignments.  Before absent: creation.  Both present: modification. -/
def syncAssignmentsOnAdministrationUpdateEventHandler (s : Store)
    (administrationId : String) (prevData currData : Option AdminDoc) :
    Store × TriggerPath :=
  match currData with
  | none =>
    match prevData with
    | none => (s, TriggerPath.okNoData)
    | some prev =>
      let prevOrgs := adminOrgs prev
      let s1 :=
        match prev.createdBy with
        | some createdBy =>
          removeAdministrationFromCreator s createdBy administrationId
        | none => s
      (processRemovedAdministration s1 administrationId prevOrgs,
       TriggerPath.removed)
  | some curr =>
    match prevData with
    | none =>
      (processNewAdministration s administrationId curr, TriggerPath.created)
    | some prev =>
      (processModifiedAdministration s administrationId prev curr,
       TriggerPath.modified)

/-! ## The organization upsert (upsert-org.ts) -/

/-- The request fields of `_upsertOrg` other than `id` and `type`
(`dataToSet`); `none` stands for an absent field. -/
structure OrgUpsertFields where
  name : Option String
  parentOrgId : Option String
  parentOrgType : Option String
  schoolId : Option String
  districtId : Option String
deriving DecidableEq, Repr

/-- `getPluralCollectionName`: `"class" ↦ "classes"`, otherwise append
`"s"`. -/
def getPluralCollectionName (orgType : String) : String :=
  if orgType = "class" then "classes" else orgType ++ "s"

/-- Apply `f` to the document `oid` of the named org collection (a no-op for
an unknown collection name or a missing document, standing in for the
failure of a Firestore update on a missing target, which would abort the
enclosing transaction without committing anything). -/
def modifyOrgColl (s : Store) (collName : String) (oid : String)
    (f : OrgDoc → OrgDoc) : Store :=
  if collName = "districts" then
    { s with districts := updateEntry s.districts oid f }
  else if collName = "schools" then
    { s with schools := updateEntry s.schools oid f }
  else if collName = "classes" then
    { s with classes := updateEntry s.classes oid f }
  else if collName = "groups" then
    { s with groups := updateEntry s.groups oid f }
  else s

/-- Look up the document `oid` of the named org collection. -/
def lookupOrgColl (s : Store) (collName : String) (oid : String) :
    Option OrgDoc :=
  if collName = "districts" then lookupIn s.districts oid
  else if collName = "schools" then lookupIn s.schools oid
  else if collName = "classes" then lookupIn s.classes oid
  else if collName = "groups" then lookupIn s.groups oid
  else none

/-- Merge the supplied fields into an org document (Firestore update:
a field present in the request overwrites, an absent one is kept). -/
def mergeOrgFields (d : OrgUpsertFields) (old : OrgDoc) : OrgDoc :=
  { old with
    name := d.name.orElse (fun _ => old.name)
    parentOrgId := d.parentOrgId.orElse (fun _ => old.parentOrgId)
    parentOrgType := d.parentOrgType.orElse (fun _ => old.parentOrgType)
    schoolId := d.schoolId.orElse (fun _ => old.schoolId)
    districtId := d.districtId.orElse (fun _ => old.districtId) }

/-- The freshly created org document of the create path (`archived := false`
is always set by the source). -/
def newOrgDoc (requestingUid : String) (d : OrgUpsertFields) : OrgDoc :=
  { name := d.name
    archived := false
    createdBy := some requestingUid
    parentOrgId := d.parentOrgId
    parentOrgType := d.parentOrgType
    schoolId := d.schoolId
    districtId := d.districtId
    subGroups := []
    schools := []
    classes := [] }

/-- Add `i` to a list with array-union semantics. -/
def arrayUnion (l : List String) (i : String) : List String :=
  if l.contains i then l else l ++ [i]

/-- Remove `i` from a list with array-remove semantics. -/
def arrayRemove (l : List String) (i : String) : List String :=
  l.filter (fun x => !(x == i))

/-- The result of the org upsert. -/
inductive OrgUpsertResult where
  | ok : String → OrgUpsertResult
  | err : ErrCode → OrgUpsertResult
deriving DecidableEq, Repr

/-- The committed writes of `_upsertOrg`'s update path, after its validation
passed: parent-relationship bookkeeping (remove the org from an old parent's
child list when the parent changed, array-union it into the new parent's)
followed by the merge update of the org document itself. -/
def upsertOrgUpdateCommit (s : Store) (orgType : String) (oid : String)
    (oldOrgData : OrgDoc) (dataToSet : OrgUpsertFields) : Store :=
  let s1 :=
    if orgType = "groups" then
      match dataToSet.parentOrgId with
      | some newParentOrgId =>
        if oldOrgData.parentOrgId ≠ some newParentOrgId ∨
            oldOrgData.parentOrgType ≠ dataToSet.parentOrgType then
          let s' :=
            match oldOrgData.parentOrgId, oldOrgData.parentOrgType with
            | some oldParentOrgId, some oldParentOrgType =>
              modifyOrgColl s (getPluralCollectionName oldParentOrgType)
                oldParentOrgId (fun p =>
                  { p with subGroups := arrayRemove p.subGroups oid })
            | _, _ => s
          modifyOrgColl s' "districts" newParentOrgId (fun p =>
            { p with subGroups := arrayUnion p.subGroups oid })
        else s
      | none => s
    else if orgType = "classes" then
      match dataToSet.schoolId with
      | some newSchoolId =>
        if oldOrgData.schoolId ≠ some newSchoolId then
          let s' :=
            match oldOrgData.schoolId with
            | some oldSchoolId =>
              modifyOrgColl s "schools" oldSchoolId (fun p =>
                { p with classes := arrayRemove p.classes oid })
            | none => s
          modifyOrgColl s' "schools" newSchoolId (fun p =>
            { p with classes := arrayUnion p.classes oid })
        else s
      | none => s
    else if orgType = "schools" then
      match dataToSet.districtId with
      | some newDistrictId =>
        if oldOrgData.districtId ≠ some newDistrictId then
          let s' :=
            match oldOrgData.districtId with
            | some oldDistrictId =>
              modifyOrgColl s "districts" oldDistrictId (fun p =>
                { p with schools := arrayRemove p.schools oid })
            | none => s
          modifyOrgColl s' "districts" newDistrictId (fun p =>
            { p with schools := arrayUnion p.schools oid })
        else s
      | none => s
    else s
  modifyOrgColl s1 orgType oid (mergeOrgFields dataToSet)

/-- The committed writes of `_upsertOrg`'s create path, after its validation
passed: the new org document plus the parent's child-list array-union. -/
def upsertOrgCreateCommit (s : Store) (requestingUid : String)
    (orgType : String) (dataToSet : OrgUpsertFields) (newOrgId : String) :
    Store :=
  let doc := newOrgDoc requestingUid dataToSet
  let s1 :=
    if orgType = "districts" then
      { s with districts := s.districts ++ [(newOrgId, doc)] }
    else if orgType = "schools" then
      { s with schools := s.schools ++ [(newOrgId, doc)] }
    else if orgType = "classes" then
      { s with classes := s.classes ++ [(newOrgId, doc)] }
    else
      { s with groups := s.groups ++ [(newOrgId, doc)] }
  if orgType = "groups" then
    match dataToSet.parentOrgId, dataToSet.parentOrgType with
    | some parentOrgId, some parentOrgType =>
      modifyOrgColl s1 (getPluralCollectionName parentOrgType) parentOrgId
        (fun p => { p with subGroups := arrayUnion p.subGroups newOrgId })
    | _, _ => s1
  else if orgType = "classes" then
    match dataToSet.schoolId with
    | some schoolId =>
      modifyOrgColl s1 "schools" schoolId (fun p =>
        { p with classes := arrayUnion p.classes newOrgId })
    | none => s1
  else if orgType = "schools" then
    match dataToSet.districtId with
    | some districtId =>
      modifyOrgColl s1 "districts" districtId (fun p =>
        { p with schools := arrayUnion p.schools newOrgId })
    | none => s1
  else s1

/-- `_upsertOrg` (upsert-org.ts), written here as `upsertOrg`.  The whole
operation runs in one transaction: a thrown validation or not-found error
aborts it, so an error result always leaves the store unchanged.  Groups
(cohorts) whose supplied parent type is set and is not `"district"` are
rejected with invalid-argument on both the update and the create path; the
relationship bookkeeping mirrors the source (removal from the old parent's
child list, array-union into the new parent's child list). -/
def upsertOrg (s : Store) (requestingUid : String) (orgId : Option String)
    (orgType : String) (dataToSet : OrgUpsertFields) (newOrgId : String) :
    Store × OrgUpsertResult :=
  if ¬(orgType = "districts" ∨ orgType = "schools" ∨ orgType = "classes" ∨
      orgType = "groups") then
    (s, OrgUpsertResult.err ErrCode.invalidArgument)
  else
    match orgId with
    | some oid =>
      match lookupOrgColl s orgType oid with
      | none => (s, OrgUpsertResult.err ErrCode.notFound)
      | some oldOrgData =>
        if orgType = "groups" then
          match dataToSet.parentOrgType with
          | some t =>
            if t ≠ "district" then
              (s, OrgUpsertResult.err ErrCode.invalidArgument)
            else
              (upsertOrgUpdateCommit s orgType oid oldOrgData dataToSet,
               OrgUpsertResult.ok oid)
          | none =>
            (upsertOrgUpdateCommit s orgType oid oldOrgData dataToSet,
             OrgUpsertResult.ok oid)
        else
          (upsertOrgUpdateCommit s orgType oid oldOrgData dataToSet,
           OrgUpsertResult.ok oid)
    | none =>
      if orgType = "groups" then
        match dataToSet.parentOrgType with
        | some t =>
          if t ≠ "district" then
            (s, OrgUpsertResult.err ErrCode.invalidArgument)
          else
            (upsertOrgCreateCommit s requestingUid orgType dataToSet newOrgId,
             OrgUpsertResult.ok newOrgId)
        | none =>
          (upsertOrgCreateCommit s requestingUid orgType dataToSet newOrgId,
           OrgUpsertResult.ok newOrgId)
      else
        (upsertOrgCreateCommit s requestingUid orgType dataToSet newOrgId,
         OrgUpsertResult.ok newOrgId)

/-- The cohort-parent invariant on one org document: its parent type, if
set, is `"district"`. -/
def groupDocOk (v : OrgDoc) : Bool :=
  match v.parentOrgType with
  | some t => t == "district"
  | none => true

/-- The cohort-parent invariant on the store: every stored cohort (group)
has a district parent whenever its parent type is set. -/
def groupsParentOk (s : Store) : Bool :=
  s.groups.all (fun p => groupDocOk p.2)

/-! ## Concrete fixtures used to instantiate the claims -/

/-- A participant user in district `d1`. -/
def sampleUser : UserDoc :=
  { userType := "student", archived := false,
    orgs := ⟨["d1"], [], [], []⟩, assignments := [], assignedIndex := [],
    administrationsCreated := [] }

/-- An archived participant user in district `d1`. -/
def sampleArchivedUser : UserDoc :=
  { userType := "student", archived := true,
    orgs := ⟨["d1"], [], [], []⟩,
    assignments := [("a1", { assessments := ["t1"], progress := 3 })],
    assignedIndex := ["a1"], administrationsCreated := [] }

/-- The creator's user document, holding `a1` in the created index. -/
def sampleCreator : UserDoc :=
  { userType := "admin", archived := false, orgs := OrgsList.empty,
    assignments := [], assignedIndex := [], administrationsCreated := ["a1"] }

/-- An administration targeting district `d1`. -/
def sampleAdminDoc : AdminDoc :=
  { name := "campaign", publicName := "campaign",
    normalizedName := "campaign", createdBy := some "c1", creatorName := "C",
    orgs := ⟨["d1"], [], [], []⟩, dateOpened := 0, dateClosed := 10,
    assessments := ["t1"], sequential := true, siteId := some "d1",
    statsAssigned := 0 }

/-- A bare district document (no child units). -/
def sampleDistrict : OrgDoc :=
  { name := some "D", archived := false, createdBy := none,
    parentOrgId := none, parentOrgType := none, schoolId := none,
    districtId := none, subGroups := [], schools := [], classes := [] }

/-- A store with the administration `a1`, the member user `u1`, the creator
`c1` (an admin), and the district `d1`. -/
def sampleStore : Store :=
  { administrations := [("a1", sampleAdminDoc)],
    users := [("u1", sampleUser), ("c1", sampleCreator)],
    userClaims := [("c1", ⟨true, false⟩)],
    districts := [("d1", sampleDistrict)], schools := [], classes := [],
    groups := [] }

/-- The sample administration with its target units removed. -/
def sampleAdminDocNoOrgs : AdminDoc :=
  { sampleAdminDoc with orgs := OrgsList.empty }

/-- A store whose only participant in district `d1` is archived and still
holds a stale assignment for `a1`. -/
def sampleStoreArchived : Store :=
  { administrations := [("a1", sampleAdminDoc)],
    users := [("ua", sampleArchivedUser), ("c1", sampleCreator)],
    userClaims := [("c1", ⟨true, false⟩)],
    districts := [("d1", sampleDistrict)], schools := [], classes := [],
    groups := [] }

/-- A fault injection failing the first transaction of every chunk. -/
def failFirstTx : Nat → Option Nat := fun _ => some 0

/-- No injected transaction faults. -/
def noFail : Nat → Option Nat := fun _ => none

/-- No injected rollback faults. -/
def noRollbackFail : Nat → Bool := fun _ => false

/-- An update request for `a1`, renaming it and adjusting its dates and
assessments while keeping district `d1` targeted. -/
def sampleUpsertData : UpsertData :=
  { name := "campaign2", publicName := none, normalizedName := "campaign2",
    assessments := some ["t1", "t2"], dateOpen := some 1, dateClose := some 9,
    sequential := false, orgs := ⟨["d1"], [], [], []⟩, tags := [],
    administrationId := some "a1", creatorName := "C" }

/-- A creation request targeting district `d1` (no administration id). -/
def sampleCreateData : UpsertData :=
  { sampleUpsertData with administrationId := none }

/-- A cohort document whose parent is the district `d1`. -/
def sampleGroupDoc : OrgDoc :=
  { name := some "G", archived := false, createdBy := none,
    parentOrgId := some "d1", parentOrgType := some "district",
    schoolId := none, districtId := none, subGroups := [], schools := [],
    classes := [] }

/-- `sampleStore` with the cohort `g1` present. -/
def sampleStoreGroups : Store :=
  { sampleStore with groups := [("g1", sampleGroupDoc)] }

/-- A cohort upsert request whose supplied parent type is a school,
violating the cohort-parent rule. -/
def badGroupFields : OrgUpsertFields :=
  { name := some "G2", parentOrgId := some "s1",
    parentOrgType := some "school", schoolId := none, districtId := none }

/-- A cohort upsert request whose parent is the district `d1`. -/
def goodGroupFields : OrgUpsertFields :=
  { name := some "G2", parentOrgId := some "d1",
    parentOrgType := some "district", schoolId := none, districtId := none }

/-! ## Lemmas: association-list primitives -/

theorem lookupIn_mapEntries {α : Type} (l : List (String × α))
    (h : String → α → α) (k : String) :
    lookupIn (mapEntries l h) k = (lookupIn l k).map (h k) := by
  induction l with
  | nil => rfl
  | cons p rest ih =>
    by_cases hk : p.1 = k
    · simp [mapEntries, lookupIn, hk]
    · simpa [mapEntries, lookupIn, hk] using ih

theorem mapEntries_congr_id {α : Type} (l : List (String × α))
    (h : String → α → α) (hid : ∀ p ∈ l, h p.1 p.2 = p.2) :
    mapEntries l h = l := by
  induction l with
  | nil => rfl
  | cons p rest ih =>
    have hp := hid p (by simp)
    have hrest : ∀ q ∈ rest, h q.1 q.2 = q.2 := fun q hq =>
      hid q (by simp [hq])
    have htail := ih hrest
    simp only [mapEntries, List.map_cons, hp, Prod.mk.eta] at htail ⊢
    rw [htail]

theorem mem_mapEntries {α : Type} {l : List (String × α)}
    {h : String → α → α} {p : String × α} (hp : p ∈ mapEntries l h) :
    ∃ q ∈ l, p = (q.1, h q.1 q.2) := by
  simp only [mapEntries, List.mem_map] at hp
  obtain ⟨q, hq, hpq⟩ := hp
  exact ⟨q, hq, hpq.symm⟩

theorem lookupIn_updateEntry_self {α : Type} (l : List (String × α))
    (k : String) (f : α → α) :
    lookupIn (updateEntry l k f) k = (lookupIn l k).map f := by
  unfold updateEntry
  rw [lookupIn_mapEntries]
  cases lookupIn l k <;> simp

theorem lookupIn_removeEntry_self {α : Type} (l : List (String × α))
    (k : String) : lookupIn (removeEntry l k) k = none := by
  induction l with
  | nil => rfl
  | cons p rest ih =>
    by_cases hk : p.1 = k
    · simpa [removeEntry, hk] using ih
    · simpa [removeEntry, lookupIn, hk] using ih

theorem lookupIn_append {α : Type} (l₁ l₂ : List (String × α)) (k : String) :
    lookupIn (l₁ ++ l₂) k =
      match lookupIn l₁ k with
      | some v => some v
      | none => lookupIn l₂ k := by
  induction l₁ with
  | nil => rfl
  | cons p rest ih =>
    by_cases hk : p.1 = k
    · simp [lookupIn, hk]
    · simpa [lookupIn, hk] using ih

theorem chunkListGo_flatten {α : Type} (n : Nat) :
    ∀ (fuel : Nat) (l : List α), l.length ≤ fuel →
      (chunkListGo n fuel l).flatten = l := by
  intro fuel
  induction fuel with
  | zero =>
    intro l hl
    cases l with
    | nil => rfl
    | cons x xs => simp at hl
  | succ fuel ih =>
    intro l hl
    cases l with
    | nil => rfl
    | cons x xs =>
      have hdrop : (xs.drop (n - 1)).length ≤ fuel := by
        simp only [List.length_cons] at hl
        simp only [List.length_drop]
        omega
      simp [chunkListGo, ih _ hdrop]

theorem chunkList_flatten {α : Type} (n : Nat) (l : List α) :
    (chunkList n l).flatten = l :=
  chunkListGo_flatten n l.length l (Nat.le_refl _)

theorem mem_of_mem_chunkList {α : Type} {n : Nat} {l : List α}
    {c : List α} (hc : c ∈ chunkList n l) {a : α} (ha : a ∈ c) : a ∈ l := by
  have := chunkList_flatten n l
  rw [← this]
  exact List.mem_flatten.mpr ⟨c, hc, ha⟩

/-! ## Lemmas: per-user document operations -/

theorem assignmentExists_addUser_self (aid : String) (d : AdminDoc)
    (u : UserDoc) : assignmentExists (addAssignmentToUser aid d u) aid = true := by
  unfold addAssignmentToUser assignmentExists
  by_cases h : (u.assignments.any fun p => p.1 == aid) = true
  · simp [h]
  · simp [h]

theorem assignmentExists_addUser_imp {aid a : String} {d : AdminDoc}
    {u : UserDoc} (h : assignmentExists (addAssignmentToUser aid d u) a = true) :
    assignmentExists u a = true ∨ a = aid := by
  by_cases ha : a = aid
  · exact Or.inr ha
  · left
    by_cases he : (u.assignments.any fun p => p.1 == aid) = true
    · have h2 := h
      simp only [addAssignmentToUser, assignmentExists] at h2
      rw [if_pos he] at h2
      exact h2
    · have h' : (u.assignments ++ [(aid, newAssignment d)]).any
          (fun p => p.1 == a) = true := by
        have h2 := h
        simp only [addAssignmentToUser, assignmentExists] at h2
        rw [if_neg he] at h2
        exact h2
      rw [List.any_append] at h'
      rcases Bool.or_eq_true_iff.mp h' with h1 | h2
      · exact h1
      · exfalso
        apply ha
        have h3 : (aid == a) = true := by simpa using h2
        exact ((by simpa using h3 : aid = a)).symm

theorem addUser_index_self (aid : String) (d : AdminDoc) (u : UserDoc) :
    (addAssignmentToUser aid d u).assignedIndex.contains aid = true := by
  by_cases h : u.assignedIndex.contains aid
  · simp only [addAssignmentToUser, if_pos h]
    exact h
  · simp only [addAssignmentToUser, if_neg h]
    simp

theorem addUser_of_assigned {aid : String} {d : AdminDoc} {u : UserDoc}
    (h1 : assignmentExists u aid = true)
    (h2 : u.assignedIndex.contains aid = true) :
    addAssignmentToUser aid d u = u := by
  simp only [addAssignmentToUser, if_pos h1, if_pos h2]

theorem assignmentExists_strip_mem {aids : List String} {a : String}
    (u : UserDoc) (h : a ∈ aids) :
    assignmentExists (stripAssignments aids u) a = false := by
  rw [Bool.eq_false_iff]
  intro hc
  simp only [stripAssignments, assignmentExists, List.any_eq_true,
    List.mem_filter] at hc
  obtain ⟨p, ⟨_, hp⟩, hbeq⟩ := hc
  have hpa : p.1 = a := by simpa using hbeq
  rw [hpa] at hp
  simp [h] at hp

theorem assignmentExists_strip_imp {aids : List String} {a : String}
    {u : UserDoc} (h : assignmentExists (stripAssignments aids u) a = true) :
    assignmentExists u a = true := by
  simp only [stripAssignments, assignmentExists, List.any_eq_true,
    List.mem_filter] at h
  obtain ⟨p, ⟨hp, _⟩, hbeq⟩ := h
  exact List.any_eq_true.mpr ⟨p, hp, hbeq⟩

theorem stripAssignments_orgs (aids : List String) (u : UserDoc) :
    (stripAssignments aids u).orgs = u.orgs := rfl

theorem stripAssignments_archived (aids : List String) (u : UserDoc) :
    (stripAssignments aids u).archived = u.archived := rfl

theorem addUser_archived (aid : String) (d : AdminDoc) (u : UserDoc) :
    (addAssignmentToUser aid d u).archived = u.archived := rfl

theorem mergeUser_archived (aid : String) (d : AdminDoc) (u : UserDoc) :
    (mergeAssignmentForUser aid d u).archived = u.archived := rfl

theorem rollback_users_eq (s : Store) (ids : List String) (aid : String)
    (w : Bool) :
    (rollbackAssignmentCreation s ids aid w).users =
      mapEntries s.users (fun k u =>
        if k ∈ ids then stripAssignments [aid] u else u) := by
  cases w <;> rfl

theorem addUser_orgs (aid : String) (d : AdminDoc) (u : UserDoc) :
    (addAssignmentToUser aid d u).orgs = u.orgs := rfl

theorem mergeUser_orgs (aid : String) (d : AdminDoc) (u : UserDoc) :
    (mergeAssignmentForUser aid d u).orgs = u.orgs := rfl

/-! ## Lemmas: store-level operations -/

theorem lookupUser_add (s : Store) (ids : List String) (aid : String)
    (d : AdminDoc) (u : String) :
    lookupUser (addAssignmentToUsers s ids aid d) u =
      (lookupUser s u).map (fun v =>
        if u ∈ ids then addAssignmentToUser aid d v else v) := by
  simp only [addAssignmentToUsers, lookupUser]
  exact lookupIn_mapEntries _ _ _

theorem lookupUser_update (s : Store) (ids : List String) (aid : String)
    (d : AdminDoc) (u : String) :
    lookupUser (updateAssignmentForUsers s ids aid d) u =
      (lookupUser s u).map (fun v =>
        if u ∈ ids then mergeAssignmentForUser aid d v else v) := by
  simp only [updateAssignmentForUsers, lookupUser]
  exact lookupIn_mapEntries _ _ _

theorem lookupUser_removeOrgs (s : Store) (ids aids : List String)
    (ro : OrgsList) (u : String) :
    lookupUser (removeOrgsFromAssignments s ids aids ro) u =
      (lookupUser s u).map (fun v =>
        if u ∈ ids then stripAssignments aids v else v) := by
  simp only [removeOrgsFromAssignments, lookupUser]
  exact lookupIn_mapEntries _ _ _

theorem lookupUser_rollback (s : Store) (ids : List String) (aid : String)
    (w : Bool) (u : String) :
    lookupUser (rollbackAssignmentCreation s ids aid w) u =
      (lookupUser s u).map (fun v =>
        if u ∈ ids then stripAssignments [aid] v else v) := by
  cases w <;>
    simp [rollbackAssignmentCreation, lookupUser, lookupIn_mapEntries]

theorem lookupUser_rbAdmin (s : Store) (aid cu : String) (u : String) :
    lookupUser (rollbackAdministrationCreation s aid cu) u =
      (lookupUser s u).map (fun v =>
        if u = cu then
          { v with
            administrationsCreated :=
              v.administrationsCreated.filter (fun i => !(i == aid)) }
        else v) := by
  simp only [rollbackAdministrationCreation, lookupUser, updateEntry]
  exact lookupIn_mapEntries _ _ _

theorem lookupUser_stats (s : Store) (aid : String) (o : OrgsList)
    (d : AdminDoc) (n : Nat) (u : String) :
    lookupUser (updateAdministrationStatsForOrgChunk s aid o d n) u =
      lookupUser s u := rfl

theorem lookupUser_standardize (s : Store) (aid : String) (d : AdminDoc)
    (u : String) :
    lookupUser (standardizeAdministrationOrgs s aid d).1 u =
      lookupUser s u := rfl

theorem admins_add (s : Store) (ids : List String) (aid : String)
    (d : AdminDoc) :
    (addAssignmentToUsers s ids aid d).administrations = s.administrations :=
  rfl

theorem admins_update (s : Store) (ids : List String) (aid : String)
    (d : AdminDoc) :
    (updateAssignmentForUsers s ids aid d).administrations =
      s.administrations := rfl

theorem admins_removeOrgs (s : Store) (ids aids : List String)
    (ro : OrgsList) :
    (removeOrgsFromAssignments s ids aids ro).administrations =
      s.administrations := rfl

theorem lookupAdmin_rollback (s : Store) (ids : List String) (aid : String)
    (w : Bool) (a : String) :
    lookupAdmin (rollbackAssignmentCreation s ids aid w) a =
      (lookupAdmin s a).map (fun v =>
        if w ∧ a = aid then
          { v with statsAssigned := v.statsAssigned - ids.length }
        else v) := by
  cases w with
  | false =>
    simp [rollbackAssignmentCreation, lookupAdmin]
  | true =>
    simp only [rollbackAssignmentCreation, lookupAdmin, updateEntry]
    simp only [if_pos trivial, lookupIn_mapEntries]
    cases lookupIn s.administrations a with
    | none => rfl
    | some v =>
      simp only [Option.map_some']
      by_cases ha : a = aid
      · simp [ha]
      · simp [ha]

theorem lookupAdmin_rbAdmin_self (s : Store) (aid cu : String) :
    lookupAdmin (rollbackAdministrationCreation s aid cu) aid = none := by
  simp only [rollbackAdministrationCreation, lookupAdmin]
  exact lookupIn_removeEntry_self _ _

theorem lookupAdmin_stats (s : Store) (aid : String) (o : OrgsList)
    (d : AdminDoc) (n : Nat) (a : String) :
    lookupAdmin (updateAdministrationStatsForOrgChunk s aid o d n) a =
      (lookupAdmin s a).map (fun v =>
        if a = aid then { v with statsAssigned := v.statsAssigned + n }
        else v) := by
  simp only [updateAdministrationStatsForOrgChunk, lookupAdmin, updateEntry]
  exact lookupIn_mapEntries _ _ _

theorem lookupAdmin_standardize (s : Store) (aid : String) (d : AdminDoc)
    (a : String) :
    lookupAdmin (standardizeAdministrationOrgs s aid d).1 a =
      (lookupAdmin s a).map (fun v =>
        if a = aid then
          { v with orgs := (standardizeAdministrationOrgs s aid d).2 }
        else v) := by
  simp only [standardizeAdministrationOrgs, lookupAdmin, updateEntry]
  exact lookupIn_mapEntries _ _ _

/-! ## Lemmas: hasAssign through the store operations -/

theorem hasAssign_add_imp {s : Store} {ids : List String} {aid : String}
    {d : AdminDoc} {u : String}
    (h : hasAssign (addAssignmentToUsers s ids aid d) u aid = true) :
    hasAssign s u aid = true ∨ u ∈ ids := by
  unfold hasAssign at h ⊢
  rw [lookupUser_add] at h
  cases hl : lookupUser s u with
  | none => rw [hl] at h; simp at h
  | some v =>
    rw [hl] at h
    simp only [Option.map_some'] at h
    by_cases hu : u ∈ ids
    · exact Or.inr hu
    · rw [if_neg hu] at h
      exact Or.inl h

theorem hasAssign_add_establish {s : Store} {ids : List String} {aid : String}
    {d : AdminDoc} {u : String} (hu : u ∈ ids)
    (hex : (lookupUser s u).isSome) :
    hasAssign (addAssignmentToUsers s ids aid d) u aid = true := by
  unfold hasAssign
  rw [lookupUser_add]
  cases hl : lookupUser s u with
  | none => rw [hl] at hex; simp at hex
  | some v =>
    simp only [Option.map_some', if_pos hu]
    exact assignmentExists_addUser_self aid d v

theorem hasAssign_rollback_mem {s : Store} {ids : List String} {aid : String}
    {w : Bool} {u : String} (hu : u ∈ ids) :
    hasAssign (rollbackAssignmentCreation s ids aid w) u aid = false := by
  unfold hasAssign
  rw [lookupUser_rollback]
  cases hl : lookupUser s u with
  | none => simp
  | some v =>
    simp only [Option.map_some', if_pos hu]
    exact assignmentExists_strip_mem v (by simp)

theorem hasAssign_rollback_imp {s : Store} {ids : List String} {aid : String}
    {w : Bool} {u a : String}
    (h : hasAssign (rollbackAssignmentCreation s ids aid w) u a = true) :
    hasAssign s u a = true := by
  unfold hasAssign at h ⊢
  rw [lookupUser_rollback] at h
  cases hl : lookupUser s u with
  | none => rw [hl] at h; simp at h
  | some v =>
    rw [hl] at h
    simp only [Option.map_some'] at h
    by_cases hu : u ∈ ids
    · rw [if_pos hu] at h
      exact assignmentExists_strip_imp h
    · rw [if_neg hu] at h
      exact h

theorem hasAssign_rbAdmin (s : Store) (aid cu : String) (u a : String) :
    hasAssign (rollbackAdministrationCreation s aid cu) u a =
      hasAssign s u a := by
  unfold hasAssign
  rw [lookupUser_rbAdmin]
  cases hl : lookupUser s u with
  | none => simp
  | some v =>
    simp only [Option.map_some']
    by_cases hu : u = cu
    · rw [if_pos hu]
      rfl
    · rw [if_neg hu]

theorem hasAssign_stats (s : Store) (aid : String) (o : OrgsList)
    (d : AdminDoc) (n : Nat) (u a : String) :
    hasAssign (updateAdministrationStatsForOrgChunk s aid o d n) u a =
      hasAssign s u a := rfl

theorem hasAssign_standardize (s : Store) (aid : String) (d : AdminDoc)
    (u a : String) :
    hasAssign (standardizeAdministrationOrgs s aid d).1 u a =
      hasAssign s u a := rfl

/-! ## Lemmas: the transaction runner and the chunk handler -/

theorem runTxSteps_ids_prefix (steps : List TxStep) (k : Nat) (ft : Option Nat)
    (s : Store) (ids : List String) :
    ∃ ext, (runTxSteps steps k ft s ids).2.1 = ids ++ ext := by
  induction steps generalizing k s ids with
  | nil => exact ⟨[], by simp [runTxSteps]⟩
  | cons step rest ih =>
    by_cases hf : ft = some k
    · exact ⟨step.1, by simp [runTxSteps, hf]⟩
    · obtain ⟨ext, hext⟩ := ih (k + 1) (step.2 s) (ids ++ step.1)
      refine ⟨step.1 ++ ext, ?_⟩
      simp only [runTxSteps, if_neg hf]
      rw [hext, List.append_assoc]

theorem runTxSteps_mem_ids {steps : List TxStep} {k : Nat} {ft : Option Nat}
    {s : Store} {ids : List String} {u : String} (hu : u ∈ ids) :
    u ∈ (runTxSteps steps k ft s ids).2.1 := by
  obtain ⟨ext, hext⟩ := runTxSteps_ids_prefix steps k ft s ids
  rw [hext]
  exact List.mem_append_left _ hu

theorem runTxSteps_hasAssign (aid : String) {steps : List TxStep}
    (hsteps : ∀ q ∈ steps, ∀ st u, hasAssign (q.2 st) u aid = true →
      hasAssign st u aid = true ∨ u ∈ q.1)
    (k : Nat) (ft : Option Nat) (s : Store) (ids : List String) (u : String)
    (h : hasAssign (runTxSteps steps k ft s ids).1 u aid = true) :
    hasAssign s u aid = true ∨ u ∈ (runTxSteps steps k ft s ids).2.1 := by
  induction steps generalizing k s ids with
  | nil =>
    simp only [runTxSteps] at h ⊢
    exact Or.inl h
  | cons step rest ih =>
    by_cases hf : ft = some k
    · simp only [runTxSteps, if_pos hf] at h ⊢
      exact Or.inl h
    · simp only [runTxSteps, if_neg hf] at h ⊢
      rcases ih (fun q hq => hsteps q (by simp [hq])) (k + 1) (step.2 s)
          (ids ++ step.1) h with h1 | h2
      · rcases hsteps step (by simp) s u h1 with h3 | h4
        · exact Or.inl h3
        · exact Or.inr (runTxSteps_mem_ids (List.mem_append_right _ h4))
      · exact Or.inr h2

theorem chunkTxSteps_add_prop (aid : String) (d : AdminDoc)
    (users : List String) :
    ∀ q ∈ chunkTxSteps aid d SyncMode.add users, ∀ st u,
      hasAssign (q.2 st) u aid = true → hasAssign st u aid = true ∨ u ∈ q.1 := by
  intro q hq st u h
  unfold chunkTxSteps at hq
  by_cases h0 : users.length = 0
  · rw [if_pos h0] at hq
    simp only [List.mem_singleton] at hq
    subst hq
    exact Or.inl h
  · rw [if_neg h0] at hq
    by_cases h1 : users.length ≤ MAX_TRANSACTIONS
    · rw [if_pos h1] at hq
      simp only [List.mem_singleton] at hq
      subst hq
      exact hasAssign_add_imp h
    · rw [if_neg h1] at hq
      rcases List.mem_cons.mp hq with hq | hq
      · subst hq
        exact Or.inl h
      · obtain ⟨c, _, hc⟩ := List.mem_map.mp hq
        subst hc
        exact hasAssign_add_imp h

theorem handler_add_fail_hasAssign {s : Store} {aid : String} {d : AdminDoc}
    {ch : OrgsList} {ft : Option Nat} {u : String}
    (hfail : (updateAssignmentsForOrgChunkHandler s aid d ch SyncMode.add ft
      false).2.success = false)
    (h : hasAssign (updateAssignmentsForOrgChunkHandler s aid d ch SyncMode.add
      ft false).1 u aid = true) :
    hasAssign s u aid = true := by
  simp only [updateAssignmentsForOrgChunkHandler] at hfail h
  rcases hrun : runTxSteps
      (chunkTxSteps aid d SyncMode.add (getUsersFromOrgs s ch false)) 0 ft s []
    with ⟨s1, ids1, e⟩
  have hrtx := runTxSteps_hasAssign aid
    (chunkTxSteps_add_prop aid d (getUsersFromOrgs s ch false)) 0 ft s [] u
  try rw [hrun] at hfail
  try rw [hrun] at h
  try rw [hrun] at hrtx
  cases e with
  | some k =>
    dsimp only at hfail h hrtx
    by_cases hlen : 0 < ids1.length
    · rw [if_pos ⟨trivial, hlen, by simp⟩] at h
      by_cases hu : u ∈ ids1
      · rw [hasAssign_rollback_mem hu] at h
        exact absurd h (by simp)
      · have h1 := hasAssign_rollback_imp h
        rcases hrtx h1 with h2 | h2
        · exact h2
        · exact absurd h2 hu
    · rw [if_neg (fun hc => hlen hc.2.1)] at h
      rcases hrtx h with h2 | h2
      · exact h2
      · exact absurd (List.length_pos_of_mem h2) hlen
  | none =>
    dsimp only at hfail h hrtx
    by_cases hlen : 0 < ids1.length
    · rw [if_pos ⟨trivial, hlen⟩] at hfail h
      by_cases hst : ft = some (chunkTxSteps aid d SyncMode.add
          (getUsersFromOrgs s ch false)).length
      · rw [if_pos hst] at h
        rw [if_pos (by simp : ¬(false = true))] at h
        by_cases hu : u ∈ ids1
        · rw [hasAssign_rollback_mem hu] at h
          exact absurd h (by simp)
        · have h1 := hasAssign_rollback_imp h
          rcases hrtx h1 with h2 | h2
          · exact h2
          · exact absurd h2 hu
      · rw [if_neg hst] at hfail
        simp at hfail
    · rw [if_neg (fun hc => hlen hc.2)] at hfail
      simp at hfail

theorem handler_add_success_hasAssign {s : Store} {aid : String} {d : AdminDoc}
    {ch : OrgsList} {ft : Option Nat} {rbf : Bool} {u : String}
    (h : hasAssign (updateAssignmentsForOrgChunkHandler s aid d ch SyncMode.add
      ft rbf).1 u aid = true) :
    hasAssign s u aid = true ∨
      u ∈ (updateAssignmentsForOrgChunkHandler s aid d ch SyncMode.add ft
        rbf).2.userIds := by
  simp only [updateAssignmentsForOrgChunkHandler] at h ⊢
  rcases hrun : runTxSteps
      (chunkTxSteps aid d SyncMode.add (getUsersFromOrgs s ch false)) 0 ft s []
    with ⟨s1, ids1, e⟩
  have hrtx := runTxSteps_hasAssign aid
    (chunkTxSteps_add_prop aid d (getUsersFromOrgs s ch false)) 0 ft s [] u
  try rw [hrun] at h
  try rw [hrun] at hrtx
  try rw [hrun]
  cases e with
  | some k =>
    dsimp only at h hrtx ⊢
    by_cases hcond : True ∧ 0 < ids1.length ∧ ¬(rbf = true)
    · rw [if_pos hcond] at h
      by_cases hu : u ∈ ids1
      · exact Or.inr hu
      · have h1 := hasAssign_rollback_imp h
        rcases hrtx h1 with h2 | h2
        · exact Or.inl h2
        · exact Or.inr h2
    · rw [if_neg hcond] at h
      exact hrtx h
  | none =>
    dsimp only at h hrtx ⊢
    by_cases hlen : 0 < ids1.length
    · rw [if_pos ⟨trivial, hlen⟩] at h ⊢
      by_cases hst : ft = some (chunkTxSteps aid d SyncMode.add
          (getUsersFromOrgs s ch false)).length
      · rw [if_pos hst] at h ⊢
        by_cases hrb : rbf = true
        · rw [if_neg (fun hc => hc hrb)] at h
          exact hrtx h
        · rw [if_pos hrb] at h
          by_cases hu : u ∈ ids1
          · exact Or.inr hu
          · have h1 := hasAssign_rollback_imp h
            rcases hrtx h1 with h2 | h2
            · exact Or.inl h2
            · exact Or.inr h2
      · rw [if_neg hst] at h ⊢
        rw [hasAssign_stats] at h
        exact hrtx h
    · rw [if_neg (fun hc => hlen hc.2)] at h ⊢
      exact hrtx h

/-! ## Lemmas: the create-assignments loop and full rollback -/

theorem lookupIn_mem {α : Type} {l : List (String × α)} {k : String} {v : α}
    (h : lookupIn l k = some v) : (k, v) ∈ l := by
  induction l with
  | nil => simp [lookupIn] at h
  | cons p rest ih =>
    by_cases hk : p.1 = k
    · rw [lookupIn, if_pos hk] at h
      apply List.mem_cons.mpr
      left
      obtain ⟨pk, pv⟩ := p
      simp only at hk h
      injection h with h2
      rw [← hk, ← h2]
    · rw [lookupIn, if_neg hk] at h
      exact List.mem_cons_of_mem _ (ih h)

theorem mem_filter_beq_self (aid : String) (l : List String) :
    aid ∉ l.filter (fun i => !(i == aid)) := by
  intro h
  have := List.mem_filter.mp h
  simp at this

theorem createAssignmentsFailureCleanup_spec (s : Store) (aid cu : String)
    (allIds : List String)
    (hassign : ∀ u, hasAssign s u aid = true → u ∈ allIds) :
    lookupAdmin (createAssignmentsFailureCleanup s aid (some cu) true allIds)
      aid = none ∧
    (∀ cd, lookupUser (createAssignmentsFailureCleanup s aid (some cu) true
      allIds) cu = some cd → aid ∉ cd.administrationsCreated) ∧
    (∀ u, hasAssign (createAssignmentsFailureCleanup s aid (some cu) true
      allIds) u aid = false) := by
  unfold createAssignmentsFailureCleanup
  dsimp only
  rw [if_pos rfl, if_pos rfl]
  refine ⟨lookupAdmin_rbAdmin_self _ _ _, ?_, ?_⟩
  · intro cd hcd
    rw [lookupUser_rbAdmin] at hcd
    cases hl : lookupUser (if 0 < allIds.length then
        rollbackAssignmentCreation
          (rollbackAdministrationCreation
            (if 0 < allIds.length then
              rollbackAssignmentCreation s allIds aid false
             else s) aid cu) allIds aid false
        else rollbackAdministrationCreation
          (if 0 < allIds.length then
            rollbackAssignmentCreation s allIds aid false
           else s) aid cu) cu with
    | none => rw [hl] at hcd; simp at hcd
    | some v =>
      rw [hl] at hcd
      simp only [Option.map_some', if_pos rfl, Option.some_inj] at hcd
      subst hcd
      exact mem_filter_beq_self aid _
  · intro u
    rw [hasAssign_rbAdmin]
    by_cases hlen : 0 < allIds.length
    · rw [if_pos hlen]
      by_cases hu : u ∈ allIds
      · exact hasAssign_rollback_mem hu
      · rw [Bool.eq_false_iff]
        intro hc
        have h1 := hasAssign_rollback_imp hc
        rw [hasAssign_rbAdmin] at h1
        rw [if_pos hlen] at h1
        exact hu (hassign u (hasAssign_rollback_imp h1))
    · rw [if_neg hlen]
      rw [hasAssign_rbAdmin]
      rw [if_neg hlen]
      rw [Bool.eq_false_iff]
      intro hc
      exact hlen (List.length_pos_of_mem (hassign u hc))

theorem createAssignmentsLoop_rollback (aid : String) (d : AdminDoc)
    (cu : String) (ft : Nat → Option Nat) (rbf : Nat → Bool)
    (hrbf : ∀ i, rbf i = false) :
    ∀ (chunks : List OrgsList) (i : Nat) (s : Store) (allIds : List String),
      (∀ u, hasAssign s u aid = true → u ∈ allIds) →
      (createAssignmentsLoop aid d (some cu) true ft rbf chunks i s
        allIds).2 = false →
      lookupAdmin (createAssignmentsLoop aid d (some cu) true ft rbf chunks i s
        allIds).1 aid = none ∧
      (∀ cd, lookupUser (createAssignmentsLoop aid d (some cu) true ft rbf
        chunks i s allIds).1 cu = some cd → aid ∉ cd.administrationsCreated) ∧
      (∀ u, hasAssign (createAssignmentsLoop aid d (some cu) true ft rbf chunks
        i s allIds).1 u aid = false) := by
  intro chunks
  induction chunks with
  | nil =>
    intro i s allIds _ hfail
    simp [createAssignmentsLoop] at hfail
  | cons c rest ih =>
    intro i s allIds hinv hfail
    simp only [createAssignmentsLoop] at hfail ⊢
    by_cases hs : (updateAssignmentsForOrgChunkHandler s aid d c SyncMode.add
        (ft i) (rbf i)).2.success = true
    · rw [if_pos hs] at hfail ⊢
      refine ih (i + 1) _ _ ?_ hfail
      intro u hu
      rcases handler_add_success_hasAssign hu with h1 | h2
      · exact List.mem_append_left _ (hinv u h1)
      · exact List.mem_append_right _ h2
    · rw [if_neg hs] at hfail ⊢
      rw [Bool.not_eq_true] at hs
      -- the failing chunk's internal rollback succeeded (`rbf i = false`)
      rw [hrbf i] at hs
      refine createAssignmentsFailureCleanup_spec _ aid cu allIds ?_
      intro u hu
      rw [hrbf i] at hu
      exact hinv u (handler_add_fail_hasAssign hs hu)

/-! ## Lemmas: user resolution is preserved by the per-user writes -/

theorem getUsersList_mapEntries (users : List (String × UserDoc))
    (h : String → UserDoc → UserDoc)
    (hpres : ∀ k u, (h k u).orgs = u.orgs ∧ (h k u).archived = u.archived)
    (orgs : OrgsList) (inc : Bool) :
    getUsersFromOrgsList (mapEntries users h) orgs inc =
      getUsersFromOrgsList users orgs inc := by
  induction users with
  | nil => rfl
  | cons p rest ih =>
    obtain ⟨ho, ha⟩ := hpres p.1 p.2
    simp only [getUsersFromOrgsList, mapEntries, List.map_cons,
      List.filter_cons] at ih ⊢
    rw [ho, ha]
    by_cases hc : (orgsIntersect p.2.orgs orgs && (inc || !p.2.archived)) = true
    · rw [if_pos hc, if_pos hc]
      simp only [List.map_cons]
      rw [ih]
    · rw [if_neg hc, if_neg hc]
      exact ih

theorem getUsers_add (s : Store) (ids : List String) (aid : String)
    (d : AdminDoc) (o : OrgsList) (i : Bool) :
    getUsersFromOrgs (addAssignmentToUsers s ids aid d) o i =
      getUsersFromOrgs s o i := by
  unfold getUsersFromOrgs addAssignmentToUsers
  dsimp only
  apply getUsersList_mapEntries
  intro k u
  by_cases hk : k ∈ ids <;> simp [hk, addUser_orgs, addUser_archived]

theorem getUsers_update (s : Store) (ids : List String) (aid : String)
    (d : AdminDoc) (o : OrgsList) (i : Bool) :
    getUsersFromOrgs (updateAssignmentForUsers s ids aid d) o i =
      getUsersFromOrgs s o i := by
  unfold getUsersFromOrgs updateAssignmentForUsers
  dsimp only
  apply getUsersList_mapEntries
  intro k u
  by_cases hk : k ∈ ids <;> simp [hk, mergeUser_orgs, mergeUser_archived]

theorem getUsers_removeOrgs (s : Store) (ids aids : List String)
    (ro : OrgsList) (o : OrgsList) (i : Bool) :
    getUsersFromOrgs (removeOrgsFromAssignments s ids aids ro) o i =
      getUsersFromOrgs s o i := by
  unfold getUsersFromOrgs removeOrgsFromAssignments
  dsimp only
  apply getUsersList_mapEntries
  intro k u
  by_cases hk : k ∈ ids <;>
    simp [hk, stripAssignments_orgs, stripAssignments_archived]

theorem getUsers_rollback (s : Store) (ids : List String) (aid : String)
    (w : Bool) (o : OrgsList) (i : Bool) :
    getUsersFromOrgs (rollbackAssignmentCreation s ids aid w) o i =
      getUsersFromOrgs s o i := by
  unfold getUsersFromOrgs
  rw [rollback_users_eq]
  apply getUsersList_mapEntries
  intro k u
  by_cases hk : k ∈ ids <;>
    simp [hk, stripAssignments_orgs, stripAssignments_archived]

theorem getUsers_stats (s : Store) (aid : String) (o' : OrgsList)
    (d : AdminDoc) (n : Nat) (o : OrgsList) (i : Bool) :
    getUsersFromOrgs (updateAdministrationStatsForOrgChunk s aid o' d n) o i =
      getUsersFromOrgs s o i := rfl

/-! ## Lemmas: the fault-free transaction run -/

theorem runTxSteps_none (steps : List TxStep) (k : Nat) (s : Store)
    (ids : List String) :
    runTxSteps steps k none s ids =
      (steps.foldl (fun st q => q.2 st) s,
       ids ++ (steps.map (fun q => q.1)).flatten, none) := by
  induction steps generalizing k s ids with
  | nil => simp [runTxSteps]
  | cons step rest ih =>
    simp only [runTxSteps, List.foldl_cons, List.map_cons, List.flatten_cons,
      reduceCtorEq, if_false]
    rw [ih (k + 1) (step.2 s) (ids ++ step.1), List.append_assoc]

theorem chunkTxSteps_pushes (aid : String) (d : AdminDoc)
    (users : List String) :
    ((chunkTxSteps aid d SyncMode.add users).map (fun q => q.1)).flatten =
      users := by
  unfold chunkTxSteps
  by_cases h0 : users.length = 0
  · rw [if_pos h0]
    simp [List.eq_nil_of_length_eq_zero h0]
  · rw [if_neg h0]
    by_cases h1 : users.length ≤ MAX_TRANSACTIONS
    · rw [if_pos h1]
      simp
    · rw [if_neg h1]
      simp only [List.map_cons, List.map_map, List.flatten_cons,
        List.nil_append]
      rw [show ((fun q : TxStep => q.1) ∘ (fun c : List String =>
            ((c, fun st => addAssignmentToUsers st c aid d) : TxStep))) =
          (fun c => c) from rfl]
      rw [List.map_id']
      exact chunkList_flatten _ _

/-! ## Lemmas: Add mode establishes assignments, and is then inert -/

theorem add_establish_pairs (s : Store) (ids : List String) (aid : String)
    (d : AdminDoc) :
    ∀ p ∈ (addAssignmentToUsers s ids aid d).users, p.1 ∈ ids →
      assignmentExists p.2 aid = true ∧
      p.2.assignedIndex.contains aid = true := by
  intro p hp hpid
  rw [show (addAssignmentToUsers s ids aid d).users = mapEntries s.users
    (fun k u => if k ∈ ids then addAssignmentToUser aid d u else u)
    from rfl] at hp
  obtain ⟨q, hq, hpq⟩ := mem_mapEntries hp
  subst hpq
  dsimp only at hpid ⊢
  rw [if_pos hpid]
  exact ⟨assignmentExists_addUser_self _ _ _, addUser_index_self _ _ _⟩

theorem foldl_add_est (aid : String) (d : AdminDoc) :
    ∀ (cs : List (List String)) (P : String → Prop) (s : Store),
      (∀ q ∈ s.users, P q.1 → assignmentExists q.2 aid = true ∧
        q.2.assignedIndex.contains aid = true) →
      ∀ p ∈ (cs.foldl (fun st c => addAssignmentToUsers st c aid d) s).users,
        (P p.1 ∨ p.1 ∈ cs.flatten) →
        assignmentExists p.2 aid = true ∧
        p.2.assignedIndex.contains aid = true := by
  intro cs
  induction cs with
  | nil =>
    intro P s hs p hp hP
    rcases hP with hP | hP
    · exact hs p hp hP
    · simp at hP
  | cons c rest ih =>
    intro P s hs p hp hP
    simp only [List.foldl_cons] at hp
    have hstep : ∀ q ∈ (addAssignmentToUsers s c aid d).users,
        (P q.1 ∨ q.1 ∈ c) → assignmentExists q.2 aid = true ∧
        q.2.assignedIndex.contains aid = true := by
      intro q hq hq2
      rw [show (addAssignmentToUsers s c aid d).users = mapEntries s.users
        (fun k u => if k ∈ c then addAssignmentToUser aid d u else u)
        from rfl] at hq
      obtain ⟨q0, hq0, hqq⟩ := mem_mapEntries hq
      subst hqq
      dsimp only at hq2 ⊢
      by_cases hc : q0.1 ∈ c
      · rw [if_pos hc]
        exact ⟨assignmentExists_addUser_self _ _ _, addUser_index_self _ _ _⟩
      · rw [if_neg hc]
        rcases hq2 with h | h
        · exact hs q0 hq0 h
        · exact absurd h hc
    refine ih (fun k => P k ∨ k ∈ c) _ hstep p hp ?_
    rcases hP with hP | hP
    · exact Or.inl (Or.inl hP)
    · simp only [List.flatten_cons] at hP
      rcases List.mem_append.mp hP with hP | hP
      · exact Or.inl (Or.inr hP)
      · exact Or.inr hP

theorem add_identity (s : Store) (ids : List String) (aid : String)
    (d : AdminDoc)
    (h : ∀ p ∈ s.users, p.1 ∈ ids → assignmentExists p.2 aid = true ∧
      p.2.assignedIndex.contains aid = true) :
    addAssignmentToUsers s ids aid d = s := by
  have hm : mapEntries s.users (fun k u =>
      if k ∈ ids then addAssignmentToUser aid d u else u) = s.users := by
    apply mapEntries_congr_id
    intro p hp
    dsimp only
    by_cases hc : p.1 ∈ ids
    · rw [if_pos hc]
      exact addUser_of_assigned (h p hp hc).1 (h p hp hc).2
    · rw [if_neg hc]
  unfold addAssignmentToUsers
  rw [hm]

theorem foldl_add_identity (aid : String) (d : AdminDoc) :
    ∀ (cs : List (List String)) (s : Store),
      (∀ p ∈ s.users, p.1 ∈ cs.flatten → assignmentExists p.2 aid = true ∧
        p.2.assignedIndex.contains aid = true) →
      cs.foldl (fun st c => addAssignmentToUsers st c aid d) s = s := by
  intro cs
  induction cs with
  | nil => intro s _; rfl
  | cons c rest ih =>
    intro s hs
    simp only [List.foldl_cons]
    have h1 : addAssignmentToUsers s c aid d = s := by
      apply add_identity
      intro p hp hc
      exact hs p hp (by simp [List.flatten_cons, List.mem_append, hc])
    rw [h1]
    apply ih
    intro p hp hc
    exact hs p hp (by simp [List.flatten_cons, List.mem_append, hc])

theorem chunkSteps_foldl_established (aid : String) (d : AdminDoc)
    (users : List String) (s : Store) :
    ∀ p ∈ ((chunkTxSteps aid d SyncMode.add users).foldl
        (fun st q => q.2 st) s).users,
      p.1 ∈ users → assignmentExists p.2 aid = true ∧
      p.2.assignedIndex.contains aid = true := by
  intro p hp hpu
  unfold chunkTxSteps at hp
  by_cases h0 : users.length = 0
  · rw [List.eq_nil_of_length_eq_zero h0] at hpu
    simp at hpu
  · rw [if_neg h0] at hp
    by_cases h1 : users.length ≤ MAX_TRANSACTIONS
    · rw [if_pos h1] at hp
      simp only [List.foldl_cons, List.foldl_nil] at hp
      exact add_establish_pairs s users aid d p hp hpu
    · rw [if_neg h1] at hp
      simp only [List.foldl_cons, List.foldl_map] at hp
      refine foldl_add_est aid d (chunkList MAX_TRANSACTIONS users)
        (fun _ => False) s (by intro q _ hq; exact absurd hq not_false) p hp ?_
      rw [chunkList_flatten]
      exact Or.inr hpu

theorem chunkSteps_foldl_identity (aid : String) (d : AdminDoc)
    (users : List String) (s : Store)
    (h : ∀ p ∈ s.users, p.1 ∈ users → assignmentExists p.2 aid = true ∧
      p.2.assignedIndex.contains aid = true) :
    (chunkTxSteps aid d SyncMode.add users).foldl (fun st q => q.2 st) s =
      s := by
  unfold chunkTxSteps
  by_cases h0 : users.length = 0
  · rw [if_pos h0]
    rfl
  · rw [if_neg h0]
    by_cases h1 : users.length ≤ MAX_TRANSACTIONS
    · rw [if_pos h1]
      simp only [List.foldl_cons, List.foldl_nil]
      exact add_identity s users aid d h
    · rw [if_neg h1]
      simp only [List.foldl_cons, List.foldl_map]
      apply foldl_add_identity
      rw [chunkList_flatten]
      exact h

theorem foldl_steps_admins (steps : List TxStep)
    (hsteps : ∀ q ∈ steps, ∀ st : Store,
      (q.2 st).administrations = st.administrations) :
    ∀ s : Store, ((steps.foldl (fun st q => q.2 st) s)).administrations =
      s.administrations := by
  induction steps with
  | nil => intro s; rfl
  | cons q rest ih =>
    intro s
    simp only [List.foldl_cons]
    rw [ih (fun q' hq' => hsteps q' (by simp [hq'])) (q.2 s),
      hsteps q (by simp) s]

theorem chunkTxSteps_admins (aid : String) (d : AdminDoc) (mode : SyncMode)
    (users : List String) :
    ∀ q ∈ chunkTxSteps aid d mode users, ∀ st : Store,
      (q.2 st).administrations = st.administrations := by
  intro q hq st
  unfold chunkTxSteps at hq
  by_cases h0 : users.length = 0
  · rw [if_pos h0] at hq
    simp only [List.mem_singleton] at hq
    subst hq
    rfl
  · rw [if_neg h0] at hq
    by_cases h1 : users.length ≤ MAX_TRANSACTIONS
    · rw [if_pos h1] at hq
      cases mode <;> simp only [List.mem_singleton] at hq <;> subst hq <;> rfl
    · rw [if_neg h1] at hq
      rcases List.mem_cons.mp hq with hq | hq
      · subst hq; rfl
      · obtain ⟨c, _, hc⟩ := List.mem_map.mp hq
        subst hc
        cases mode <;> rfl

theorem chunkTxSteps_getUsers (aid : String) (d : AdminDoc) (mode : SyncMode)
    (users : List String) (o : OrgsList) (i : Bool) :
    ∀ q ∈ chunkTxSteps aid d mode users, ∀ st : Store,
      getUsersFromOrgs (q.2 st) o i = getUsersFromOrgs st o i := by
  intro q hq st
  unfold chunkTxSteps at hq
  by_cases h0 : users.length = 0
  · rw [if_pos h0] at hq
    simp only [List.mem_singleton] at hq
    subst hq
    rfl
  · rw [if_neg h0] at hq
    by_cases h1 : users.length ≤ MAX_TRANSACTIONS
    · rw [if_pos h1] at hq
      cases mode <;> simp only [List.mem_singleton] at hq <;> subst hq
      · exact getUsers_update st users aid d o i
      · exact getUsers_add st users aid d o i
    · rw [if_neg h1] at hq
      rcases List.mem_cons.mp hq with hq | hq
      · subst hq; rfl
      · obtain ⟨c, _, hc⟩ := List.mem_map.mp hq
        subst hc
        cases mode
        · exact getUsers_update st c aid d o i
        · exact getUsers_add st c aid d o i

theorem foldl_steps_getUsers (steps : List TxStep) (o : OrgsList) (i : Bool)
    (hsteps : ∀ q ∈ steps, ∀ st : Store,
      getUsersFromOrgs (q.2 st) o i = getUsersFromOrgs st o i) :
    ∀ s : Store,
      getUsersFromOrgs ((steps.foldl (fun st q => q.2 st) s)) o i =
        getUsersFromOrgs s o i := by
  induction steps with
  | nil => intro s; rfl
  | cons q rest ih =>
    intro s
    simp only [List.foldl_cons]
    rw [ih (fun q' hq' => hsteps q' (by simp [hq'])) (q.2 s),
      hsteps q (by simp) s]

/-! ## Lemmas: the fault-free Add-mode chunk handler -/

theorem handler_add_none_result (s : Store) (aid : String) (d : AdminDoc)
    (ch : OrgsList) (rbf : Bool) :
    (updateAssignmentsForOrgChunkHandler s aid d ch SyncMode.add none rbf).2 =
      { success := true, userIds := getUsersFromOrgs s ch false,
        error := none } := by
  simp only [updateAssignmentsForOrgChunkHandler]
  rw [runTxSteps_none]
  dsimp only
  rw [List.nil_append, chunkTxSteps_pushes]
  by_cases hlen : 0 < (getUsersFromOrgs s ch false).length
  · rw [if_pos ⟨trivial, hlen⟩, if_neg (by simp)]
  · rw [if_neg (fun hc => hlen hc.2)]

theorem handler_add_none_users (s : Store) (aid : String) (d : AdminDoc)
    (ch : OrgsList) (rbf : Bool) :
    (updateAssignmentsForOrgChunkHandler s aid d ch SyncMode.add none
      rbf).1.users =
      ((chunkTxSteps aid d SyncMode.add (getUsersFromOrgs s ch false)).foldl
        (fun st q => q.2 st) s).users := by
  simp only [updateAssignmentsForOrgChunkHandler]
  rw [runTxSteps_none]
  dsimp only
  rw [List.nil_append, chunkTxSteps_pushes]
  by_cases hlen : 0 < (getUsersFromOrgs s ch false).length
  · rw [if_pos ⟨trivial, hlen⟩, if_neg (by simp)]
    rfl
  · rw [if_neg (fun hc => hlen hc.2)]

theorem handler_add_none_admins (s : Store) (aid : String) (d : AdminDoc)
    (ch : OrgsList) (rbf : Bool) :
    (updateAssignmentsForOrgChunkHandler s aid d ch SyncMode.add none
      rbf).1.administrations =
      (if 0 < (getUsersFromOrgs s ch false).length then
        updateEntry s.administrations aid (fun a =>
          { a with statsAssigned :=
              a.statsAssigned + (getUsersFromOrgs s ch false).length })
      else s.administrations) := by
  simp only [updateAssignmentsForOrgChunkHandler]
  rw [runTxSteps_none]
  dsimp only
  rw [List.nil_append, chunkTxSteps_pushes]
  have hadm := foldl_steps_admins
    (chunkTxSteps aid d SyncMode.add (getUsersFromOrgs s ch false))
    (chunkTxSteps_admins aid d SyncMode.add (getUsersFromOrgs s ch false)) s
  by_cases hlen : 0 < (getUsersFromOrgs s ch false).length
  · rw [if_pos ⟨trivial, hlen⟩, if_neg (by simp), if_pos hlen]
    simp only [updateAdministrationStatsForOrgChunk]
    rw [hadm]
  · rw [if_neg (fun hc => hlen hc.2), if_neg hlen]
    exact hadm

theorem handler_add_none_getUsers (s : Store) (aid : String) (d : AdminDoc)
    (ch : OrgsList) (rbf : Bool) (o : OrgsList) (i : Bool) :
    getUsersFromOrgs (updateAssignmentsForOrgChunkHandler s aid d ch
      SyncMode.add none rbf).1 o i = getUsersFromOrgs s o i := by
  have husers := handler_add_none_users s aid d ch rbf
  show getUsersFromOrgsList (updateAssignmentsForOrgChunkHandler s aid d ch
    SyncMode.add none rbf).1.users o i = getUsersFromOrgs s o i
  rw [husers]
  exact foldl_steps_getUsers _ o i
    (chunkTxSteps_getUsers aid d SyncMode.add _ o i) s

/-! ## Claim C1 -/

/-- C1: brand-new campaign creation is all-or-nothing.  If the
assignment-sync step of `createAssignments` for a fresh administration fails
at any chunk (`hfail`), then — provided the per-chunk internal rollbacks
completed (`hrbf`) — after the rollback the administration document does not
exist, the administration id is absent from the creator's
`administrationsCreated` index, and no user holds an assignment sub-record
for that administration id. -/
theorem c1_atomic_creation_rollback (s : Store) (aid : String) (d : AdminDoc)
    (cu : String) (ft : Nat → Option Nat) (rbf : Nat → Bool)
    (hrbf : ∀ i, rbf i = false)
    (hfresh : s.users.all (fun p => !(assignmentExists p.2 aid)) = true)
    (hfail : (createAssignments s aid d (some cu) true ft rbf).2 = false) :
    lookupAdmin (createAssignments s aid d (some cu) true ft rbf).1 aid =
      none ∧
    (∀ cd, lookupUser (createAssignments s aid d (some cu) true ft rbf).1 cu =
      some cd → aid ∉ cd.administrationsCreated) ∧
    (∀ u, hasAssign (createAssignments s aid d (some cu) true ft rbf).1 u aid =
      false) := by
  have hfresh' : ∀ u,
      hasAssign (standardizeAdministrationOrgs s aid d).1 u aid = true →
        u ∈ ([] : List String) := by
    intro u hu
    rw [hasAssign_standardize] at hu
    exfalso
    unfold hasAssign at hu
    cases hl : lookupUser s u with
    | none => rw [hl] at hu; simp at hu
    | some v =>
      rw [hl] at hu
      have hv := lookupIn_mem hl
      have hall := List.all_eq_true.mp hfresh (u, v) hv
      simp only [Bool.not_eq_true'] at hall
      have hu' : assignmentExists v aid = true := hu
      rw [hu'] at hall
      exact absurd hall (by simp)
  unfold createAssignments at hfail ⊢
  exact createAssignmentsLoop_rollback aid d cu ft rbf hrbf _ 0 _ [] hfresh'
    hfail

/-- C1 witness: on the concrete store, with the first transaction of every
chunk failing, the failed creation leaves no administration document, a
clean creator index, and no assignment for the member user. -/
theorem c1_witness :
    lookupAdmin (createAssignments sampleStore "a1" sampleAdminDoc (some "c1")
      true failFirstTx noRollbackFail).1 "a1" = none ∧
    (∀ cd, lookupUser (createAssignments sampleStore "a1" sampleAdminDoc
      (some "c1") true failFirstTx noRollbackFail).1 "c1" = some cd →
      "a1" ∉ cd.administrationsCreated) ∧
    hasAssign (createAssignments sampleStore "a1" sampleAdminDoc (some "c1")
      true failFirstTx noRollbackFail).1 "u1" "a1" = false := by
  have h := c1_atomic_creation_rollback sampleStore "a1" sampleAdminDoc "c1"
    failFirstTx noRollbackFail (fun i => rfl) (by decide) (by decide)
  exact ⟨h.1, h.2.1, h.2.2 "u1"⟩

/-! ## Claim C2 -/

/-- C2 counterexample: applying the same Add-mode chunk twice is not
idempotent as claimed — on the concrete store the administration's
assigned-user stats counter is 1 after one application and 2 after two, so
the final store states differ. -/
theorem c2_counterexample :
    (lookupAdmin (updateAssignmentsForOrgChunkHandler
      (updateAssignmentsForOrgChunkHandler sampleStore "a1" sampleAdminDoc
        (OrgsList.mk ["d1"] [] [] []) SyncMode.add none false).1 "a1"
      sampleAdminDoc (OrgsList.mk ["d1"] [] [] []) SyncMode.add none
      false).1 "a1").map (fun a => a.statsAssigned) = some 2 ∧
    (lookupAdmin (updateAssignmentsForOrgChunkHandler sampleStore "a1"
      sampleAdminDoc (OrgsList.mk ["d1"] [] [] []) SyncMode.add none
      false).1 "a1").map (fun a => a.statsAssigned) = some 1 ∧
    (updateAssignmentsForOrgChunkHandler
      (updateAssignmentsForOrgChunkHandler sampleStore "a1" sampleAdminDoc
        (OrgsList.mk ["d1"] [] [] []) SyncMode.add none false).1 "a1"
      sampleAdminDoc (OrgsList.mk ["d1"] [] [] []) SyncMode.add none
      false).1 ≠
    (updateAssignmentsForOrgChunkHandler sampleStore "a1" sampleAdminDoc
      (OrgsList.mk ["d1"] [] [] []) SyncMode.add none false).1 := by
  exact ⟨by decide, by decide, by decide⟩

/-- C2 (amended): applying the same fault-free Add-mode chunk twice leaves
every user document identical to a single application (no duplicate
assignment sub-records, identical assigned-ids indexes) and returns the same
result, but the administration's assigned-user stats counter is incremented
again by the chunk's user count on the second application — doubled, not
incremented once. -/
theorem c2_add_chunk_idempotence_amended (s : Store) (aid : String)
    (d d0 : AdminDoc) (ch : OrgsList)
    (hdoc : lookupAdmin s aid = some d0) :
    (updateAssignmentsForOrgChunkHandler
        (updateAssignmentsForOrgChunkHandler s aid d ch SyncMode.add none
          false).1 aid d ch SyncMode.add none false).1.users =
      (updateAssignmentsForOrgChunkHandler s aid d ch SyncMode.add none
        false).1.users ∧
    (updateAssignmentsForOrgChunkHandler
        (updateAssignmentsForOrgChunkHandler s aid d ch SyncMode.add none
          false).1 aid d ch SyncMode.add none false).2 =
      (updateAssignmentsForOrgChunkHandler s aid d ch SyncMode.add none
        false).2 ∧
    (lookupAdmin (updateAssignmentsForOrgChunkHandler
        (updateAssignmentsForOrgChunkHandler s aid d ch SyncMode.add none
          false).1 aid d ch SyncMode.add none false).1 aid).map
        (fun a => a.statsAssigned) =
      some (d0.statsAssigned + (getUsersFromOrgs s ch false).length
        + (getUsersFromOrgs s ch false).length) := by
  have hres2 : getUsersFromOrgs
      (updateAssignmentsForOrgChunkHandler s aid d ch SyncMode.add none
        false).1 ch false = getUsersFromOrgs s ch false :=
    handler_add_none_getUsers s aid d ch false ch false
  have hest : ∀ p ∈ (updateAssignmentsForOrgChunkHandler s aid d ch
      SyncMode.add none false).1.users,
      p.1 ∈ getUsersFromOrgs s ch false →
      assignmentExists p.2 aid = true ∧
      p.2.assignedIndex.contains aid = true := by
    intro p hp
    rw [handler_add_none_users] at hp
    exact chunkSteps_foldl_established aid d (getUsersFromOrgs s ch false) s
      p hp
  have hid : (chunkTxSteps aid d SyncMode.add
      (getUsersFromOrgs s ch false)).foldl (fun st q => q.2 st)
      (updateAssignmentsForOrgChunkHandler s aid d ch SyncMode.add none
        false).1 =
      (updateAssignmentsForOrgChunkHandler s aid d ch SyncMode.add none
        false).1 :=
    chunkSteps_foldl_identity aid d (getUsersFromOrgs s ch false) _ hest
  refine ⟨?_, ?_, ?_⟩
  · rw [handler_add_none_users, hres2, hid]
  · rw [handler_add_none_result, hres2, handler_add_none_result]
  · have hlook1 : lookupAdmin (updateAssignmentsForOrgChunkHandler s aid d ch
        SyncMode.add none false).1 aid =
        (if 0 < (getUsersFromOrgs s ch false).length then
          (lookupAdmin s aid).map (fun a =>
            { a with statsAssigned :=
                a.statsAssigned + (getUsersFromOrgs s ch false).length })
        else lookupAdmin s aid) := by
      show lookupIn (updateAssignmentsForOrgChunkHandler s aid d ch
        SyncMode.add none false).1.administrations aid = _
      rw [handler_add_none_admins]
      by_cases hlen : 0 < (getUsersFromOrgs s ch false).length
      · rw [if_pos hlen, if_pos hlen, lookupIn_updateEntry_self]
        rfl
      · rw [if_neg hlen, if_neg hlen]
        rfl
    have hlook2 : lookupAdmin (updateAssignmentsForOrgChunkHandler
        (updateAssignmentsForOrgChunkHandler s aid d ch SyncMode.add none
          false).1 aid d ch SyncMode.add none false).1 aid =
        (if 0 < (getUsersFromOrgs s ch false).length then
          (lookupAdmin (updateAssignmentsForOrgChunkHandler s aid d ch
            SyncMode.add none false).1 aid).map (fun a =>
            { a with statsAssigned :=
                a.statsAssigned + (getUsersFromOrgs s ch false).length })
        else lookupAdmin (updateAssignmentsForOrgChunkHandler s aid d ch
          SyncMode.add none false).1 aid) := by
      show lookupIn (updateAssignmentsForOrgChunkHandler
        (updateAssignmentsForOrgChunkHandler s aid d ch SyncMode.add none
          false).1 aid d ch SyncMode.add none false).1.administrations aid = _
      rw [handler_add_none_admins, hres2]
      by_cases hlen : 0 < (getUsersFromOrgs s ch false).length
      · rw [if_pos hlen, if_pos hlen, lookupIn_updateEntry_self]
        rfl
      · rw [if_neg hlen, if_neg hlen]
        rfl
    rw [hlook2]
    by_cases hlen : 0 < (getUsersFromOrgs s ch false).length
    · rw [if_pos hlen, hlook1, if_pos hlen, hdoc]
      rfl
    · rw [if_neg hlen, hlook1, if_neg hlen, hdoc]
      have h0 : (getUsersFromOrgs s ch false).length = 0 :=
        Nat.eq_zero_of_not_pos hlen
      simp [h0]

/-- C2 witness: the amended statement instantiated on the concrete store —
the second application leaves the user table unchanged but the stats counter
at twice the chunk's user count. -/
theorem c2_witness :
    (lookupAdmin (updateAssignmentsForOrgChunkHandler
      (updateAssignmentsForOrgChunkHandler sampleStore "a1" sampleAdminDoc
        (OrgsList.mk ["d1"] [] [] []) SyncMode.add none false).1 "a1"
      sampleAdminDoc (OrgsList.mk ["d1"] [] [] []) SyncMode.add none
      false).1 "a1").map (fun a => a.statsAssigned) =
      some (sampleAdminDoc.statsAssigned +
        (getUsersFromOrgs sampleStore (OrgsList.mk ["d1"] [] [] [])
          false).length +
        (getUsersFromOrgs sampleStore (OrgsList.mk ["d1"] [] [] [])
          false).length) :=
  (c2_add_chunk_idempotence_amended sampleStore "a1" sampleAdminDoc
    sampleAdminDoc (OrgsList.mk ["d1"] [] [] []) (by decide)).2.2

/-! ## Claim C6 -/

theorem runTxSteps_error (steps : List TxStep) :
    ∀ (k : Nat) (ft : Option Nat) (s : Store) (ids : List String)
      (s1 : Store) (ids1 : List String) (kk : Nat),
      runTxSteps steps k ft s ids = (s1, ids1, some kk) → ft = some kk := by
  induction steps with
  | nil =>
    intro k ft s ids s1 ids1 kk h
    simp [runTxSteps] at h
  | cons step rest ih =>
    intro k ft s ids s1 ids1 kk h
    by_cases hf : ft = some k
    · simp only [runTxSteps, if_pos hf] at h
      injection h with h1 h2
      injection h2 with h2 h3
      injection h3 with h4
      rw [hf, h4]
    · simp only [runTxSteps, if_neg hf] at h
      exact ih (k + 1) ft (step.2 s) (ids ++ step.1) s1 ids1 kk h

theorem runTxSteps_frame {steps : List TxStep}
    (hsteps : ∀ q ∈ steps, ∀ (st : Store) (u : String), u ∉ q.1 →
      lookupUser (q.2 st) u = lookupUser st u) :
    ∀ (k : Nat) (ft : Option Nat) (s : Store) (ids : List String)
      (u : String), u ∉ (runTxSteps steps k ft s ids).2.1 →
      lookupUser (runTxSteps steps k ft s ids).1 u = lookupUser s u := by
  induction steps with
  | nil => intro k ft s ids u _; rfl
  | cons step rest ih =>
    intro k ft s ids u hu
    by_cases hf : ft = some k
    · simp only [runTxSteps, if_pos hf]
    · simp only [runTxSteps, if_neg hf] at hu ⊢
      have hustep : u ∉ step.1 := by
        intro hc
        exact hu (runTxSteps_mem_ids (List.mem_append_right _ hc))
      rw [ih (fun q hq => hsteps q (by simp [hq])) (k + 1) ft (step.2 s)
        (ids ++ step.1) u hu]
      exact hsteps step (by simp) s u hustep

theorem chunkTxSteps_add_frame (aid : String) (d : AdminDoc)
    (users : List String) :
    ∀ q ∈ chunkTxSteps aid d SyncMode.add users, ∀ (st : Store) (u : String),
      u ∉ q.1 → lookupUser (q.2 st) u = lookupUser st u := by
  intro q hq st u hu
  unfold chunkTxSteps at hq
  by_cases h0 : users.length = 0
  · rw [if_pos h0] at hq
    simp only [List.mem_singleton] at hq
    subst hq
    rfl
  · rw [if_neg h0] at hq
    by_cases h1 : users.length ≤ MAX_TRANSACTIONS
    · rw [if_pos h1] at hq
      simp only [List.mem_singleton] at hq
      subst hq
      rw [lookupUser_add]
      cases lookupUser st u with
      | none => rfl
      | some v => simp only [Option.map_some', if_neg hu]
    · rw [if_neg h1] at hq
      rcases List.mem_cons.mp hq with hq | hq
      · subst hq; rfl
      · obtain ⟨c, _, hc⟩ := List.mem_map.mp hq
        subst hc
        rw [lookupUser_add]
        cases lookupUser st u with
        | none => rfl
        | some v => simp only [Option.map_some', if_neg hu]

/-- C6 counterexample: the returned `userIds` are not exactly the
successfully mutated users — on the concrete store the single add
transaction's commit fails, no user document is mutated at all (the final
store equals the initial one), yet the handler reports
`userIds = ["u1"]`. -/
theorem c6_counterexample :
    (updateAssignmentsForOrgChunkHandler sampleStore "a1" sampleAdminDoc
      (OrgsList.mk ["d1"] [] [] []) SyncMode.add (some 0) false).2.success =
      false ∧
    (updateAssignmentsForOrgChunkHandler sampleStore "a1" sampleAdminDoc
      (OrgsList.mk ["d1"] [] [] []) SyncMode.add (some 0)
      false).2.userIds = ["u1"] ∧
    (updateAssignmentsForOrgChunkHandler sampleStore "a1" sampleAdminDoc
      (OrgsList.mk ["d1"] [] [] []) SyncMode.add (some 0) false).1.users =
      sampleStore.users := by
  exact ⟨by decide, by decide, by decide⟩

/-- C6 (amended): when an Add-mode chunk invocation fails, the handler
returns `success := false` with the ids of every user in all attempted
sub-chunks — a superset of the successfully mutated users, so applied work
is never dropped from the return value: any user outside the returned ids
has an untouched document — and the returned error is the original write
fault even when the internal rollback itself fails.  (On the concrete
counterexample no user document is mutated, yet a user id is reported.) -/
theorem c6_chunk_failure_reporting_amended (s : Store) (aid : String)
    (d : AdminDoc) (ch : OrgsList) (ft : Option Nat) (rbf : Bool)
    (hfail : (updateAssignmentsForOrgChunkHandler s aid d ch SyncMode.add ft
      rbf).2.success = false) :
    (updateAssignmentsForOrgChunkHandler s aid d ch SyncMode.add ft
      rbf).2.error = ft ∧
    (∀ u, u ∉ (updateAssignmentsForOrgChunkHandler s aid d ch SyncMode.add ft
        rbf).2.userIds →
      lookupUser (updateAssignmentsForOrgChunkHandler s aid d ch SyncMode.add
        ft rbf).1 u = lookupUser s u) := by
  simp only [updateAssignmentsForOrgChunkHandler] at hfail ⊢
  rcases hrun : runTxSteps
      (chunkTxSteps aid d SyncMode.add (getUsersFromOrgs s ch false)) 0 ft s []
    with ⟨s1, ids1, e⟩
  have hframe := runTxSteps_frame
    (chunkTxSteps_add_frame aid d (getUsersFromOrgs s ch false)) 0 ft s []
  try rw [hrun] at hfail
  try rw [hrun] at hframe
  try rw [hrun]
  cases e with
  | some k =>
    dsimp only at hfail hframe ⊢
    have herr : ft = some k :=
      runTxSteps_error _ 0 ft s [] s1 ids1 k hrun
    constructor
    · exact herr.symm
    · intro u hu
      have hbase := hframe u hu
      by_cases hcond : True ∧ 0 < ids1.length ∧ ¬(rbf = true)
      · rw [if_pos hcond]
        rw [lookupUser_rollback]
        rw [hbase]
        cases lookupUser s u with
        | none => rfl
        | some v => simp only [Option.map_some', if_neg hu]
      · rw [if_neg hcond]
        exact hbase
  | none =>
    dsimp only at hfail hframe ⊢
    by_cases hlen : 0 < ids1.length
    · rw [if_pos ⟨trivial, hlen⟩] at hfail ⊢
      by_cases hst : ft = some (chunkTxSteps aid d SyncMode.add
          (getUsersFromOrgs s ch false)).length
      · rw [if_pos hst] at hfail ⊢
        constructor
        · exact hst.symm
        · intro u hu
          have hbase := hframe u hu
          by_cases hrb : rbf = true
          · rw [if_neg (fun hc => hc hrb)]
            exact hbase
          · rw [if_pos hrb]
            rw [lookupUser_rollback]
            rw [hbase]
            cases lookupUser s u with
            | none => rfl
            | some v => simp only [Option.map_some', if_neg hu]
      · rw [if_neg hst] at hfail
        simp at hfail
    · rw [if_neg (fun hc => hlen hc.2)] at hfail
      simp at hfail

/-- C6 witness: on the concrete store with the first commit failing and the
internal rollback also failing, the returned error is still the original
fault, and the untouched creator document is unchanged. -/
theorem c6_witness :
    (updateAssignmentsForOrgChunkHandler sampleStore "a1" sampleAdminDoc
      (OrgsList.mk ["d1"] [] [] []) SyncMode.add (some 0) true).2.error =
      some 0 ∧
    lookupUser (updateAssignmentsForOrgChunkHandler sampleStore "a1"
      sampleAdminDoc (OrgsList.mk ["d1"] [] [] []) SyncMode.add (some 0)
      true).1 "c1" = lookupUser sampleStore "c1" := by
  have h := c6_chunk_failure_reporting_amended sampleStore "a1" sampleAdminDoc
    (OrgsList.mk ["d1"] [] [] []) (some 0) true (by decide)
  exact ⟨h.1, h.2 "c1" (by decide)⟩

/-! ## Claim C7 -/

theorem mapEntries_keys {α : Type} (l : List (String × α))
    (h : String → α → α) :
    (mapEntries l h).map Prod.fst = l.map Prod.fst := by
  induction l with
  | nil => rfl
  | cons p rest ih =>
    simp only [mapEntries, List.map_cons] at ih ⊢
    rw [ih]

theorem nodup_key_unique {α : Type} {l : List (String × α)}
    (h : (l.map Prod.fst).Nodup) {p q : String × α} (hp : p ∈ l) (hq : q ∈ l)
    (hk : p.1 = q.1) : p = q := by
  induction l with
  | nil => simp at hp
  | cons r rest ih =>
    simp only [List.map_cons, List.nodup_cons] at h
    rcases List.mem_cons.mp hp with hp1 | hp1 <;>
      rcases List.mem_cons.mp hq with hq1 | hq1
    · rw [hp1, hq1]
    · exfalso
      apply h.1
      have hr : r.1 = q.1 := by rw [← hp1]; exact hk
      rw [hr]
      exact List.mem_map.mpr ⟨q, hq1, rfl⟩
    · exfalso
      apply h.1
      have hr : r.1 = p.1 := by rw [← hq1]; exact hk.symm
      rw [hr]
      exact List.mem_map.mpr ⟨p, hp1, rfl⟩
    · exact ih h.2 hp1 hq1

theorem archived_not_resolved {s : Store} {u : String} {v : UserDoc}
    (hwf : (s.users.map Prod.fst).Nodup)
    (hl : lookupUser s u = some v) (ha : v.archived = true) (o : OrgsList) :
    u ∉ getUsersFromOrgs s o false := by
  intro hmem
  unfold getUsersFromOrgs getUsersFromOrgsList at hmem
  obtain ⟨p, hpmem, hpu⟩ := List.mem_map.mp hmem
  have hpfil := List.mem_filter.mp hpmem
  have hpeq : p = (u, v) :=
    nodup_key_unique hwf hpfil.1 (lookupIn_mem hl) (by rw [hpu])
  rw [hpeq] at hpfil
  simp only [Bool.and_eq_true, Bool.or_eq_true, Bool.not_eq_true'] at hpfil
  rcases hpfil.2.2 with h | h
  · simp at h
  · rw [ha] at h
    simp at h

theorem runTxSteps_frame_set {steps : List TxStep} (P : String → Prop)
    (hsteps : ∀ q ∈ steps, ∀ (st : Store) (u : String), P u →
      lookupUser (q.2 st) u = lookupUser st u) :
    ∀ (k : Nat) (ft : Option Nat) (s : Store) (ids : List String)
      (u : String), P u →
      lookupUser (runTxSteps steps k ft s ids).1 u = lookupUser s u := by
  induction steps with
  | nil => intro k ft s ids u _; rfl
  | cons step rest ih =>
    intro k ft s ids u hP
    by_cases hf : ft = some k
    · simp only [runTxSteps, if_pos hf]
    · simp only [runTxSteps, if_neg hf]
      rw [ih (fun q hq => hsteps q (by simp [hq])) (k + 1) ft (step.2 s)
        (ids ++ step.1) u hP]
      exact hsteps step (by simp) s u hP

theorem chunkTxSteps_frame_set (aid : String) (d : AdminDoc)
    (mode : SyncMode) (users : List String) :
    ∀ q ∈ chunkTxSteps aid d mode users, ∀ (st : Store) (u : String),
      u ∉ users → lookupUser (q.2 st) u = lookupUser st u := by
  intro q hq st u hu
  unfold chunkTxSteps at hq
  by_cases h0 : users.length = 0
  · rw [if_pos h0] at hq
    simp only [List.mem_singleton] at hq
    subst hq
    rfl
  · rw [if_neg h0] at hq
    by_cases h1 : users.length ≤ MAX_TRANSACTIONS
    · rw [if_pos h1] at hq
      cases mode <;> simp only [List.mem_singleton] at hq <;> subst hq
      · rw [lookupUser_update]
        cases lookupUser st u with
        | none => rfl
        | some v => simp only [Option.map_some', if_neg hu]
      · rw [lookupUser_add]
        cases lookupUser st u with
        | none => rfl
        | some v => simp only [Option.map_some', if_neg hu]
    · rw [if_neg h1] at hq
      rcases List.mem_cons.mp hq with hq | hq
      · subst hq; rfl
      · obtain ⟨c, hcmem, hc⟩ := List.mem_map.mp hq
        have hnc : u ∉ c := fun hin => hu (mem_of_mem_chunkList hcmem hin)
        cases mode <;> rw [← hc]
        · rw [lookupUser_update]
          cases lookupUser st u with
          | none => rfl
          | some v => simp only [Option.map_some', if_neg hnc]
        · rw [lookupUser_add]
          cases lookupUser st u with
          | none => rfl
          | some v => simp only [Option.map_some', if_neg hnc]

theorem runTxSteps_ids_subset {steps : List TxStep} (P : String → Prop)
    (hpush : ∀ q ∈ steps, ∀ x ∈ q.1, P x) :
    ∀ (k : Nat) (ft : Option Nat) (s : Store) (ids : List String),
      ∀ x ∈ (runTxSteps steps k ft s ids).2.1, x ∈ ids ∨ P x := by
  induction steps with
  | nil =>
    intro k ft s ids x hx
    simp only [runTxSteps] at hx
    exact Or.inl hx
  | cons step rest ih =>
    intro k ft s ids x hx
    by_cases hf : ft = some k
    · simp only [runTxSteps, if_pos hf] at hx
      rcases List.mem_append.mp hx with h | h
      · exact Or.inl h
      · exact Or.inr (hpush step (by simp) x h)
    · simp only [runTxSteps, if_neg hf] at hx
      rcases ih (fun q hq => hpush q (by simp [hq])) (k + 1) ft (step.2 s)
          (ids ++ step.1) x hx with h | h
      · rcases List.mem_append.mp h with h1 | h1
        · exact Or.inl h1
        · exact Or.inr (hpush step (by simp) x h1)
      · exact Or.inr h

theorem chunkTxSteps_pushes_subset (aid : String) (d : AdminDoc)
    (mode : SyncMode) (users : List String) :
    ∀ q ∈ chunkTxSteps aid d mode users, ∀ x ∈ q.1, x ∈ users := by
  intro q hq x hx
  unfold chunkTxSteps at hq
  by_cases h0 : users.length = 0
  · rw [if_pos h0] at hq
    simp only [List.mem_singleton] at hq
    subst hq
    simp at hx
  · rw [if_neg h0] at hq
    by_cases h1 : users.length ≤ MAX_TRANSACTIONS
    · rw [if_pos h1] at hq
      cases mode <;> simp only [List.mem_singleton] at hq <;> subst hq
      · simp at hx
      · exact hx
    · rw [if_neg h1] at hq
      rcases List.mem_cons.mp hq with hq | hq
      · subst hq; simp at hx
      · obtain ⟨c, hcmem, hc⟩ := List.mem_map.mp hq
        cases mode <;> rw [← hc] at hx
        · simp at hx
        · exact mem_of_mem_chunkList hcmem hx

theorem handler_frame_nonmember (s : Store) (aid : String) (d : AdminDoc)
    (ch : OrgsList) (mode : SyncMode) (ft : Option Nat) (rbf : Bool)
    (u : String) (hu : u ∉ getUsersFromOrgs s ch false) :
    lookupUser (updateAssignmentsForOrgChunkHandler s aid d ch mode ft
      rbf).1 u = lookupUser s u := by
  simp only [updateAssignmentsForOrgChunkHandler]
  rcases hrun : runTxSteps
      (chunkTxSteps aid d mode (getUsersFromOrgs s ch false)) 0 ft s []
    with ⟨s1, ids1, e⟩
  have hbase := runTxSteps_frame_set (fun x => x ∉ getUsersFromOrgs s ch false)
    (fun q hq st u' hu' => chunkTxSteps_frame_set aid d mode _ q hq st u' hu')
    0 ft s [] u hu
  have hids : u ∉ ids1 := by
    intro hin
    rcases runTxSteps_ids_subset (fun x => x ∈ getUsersFromOrgs s ch false)
        (fun q hq => chunkTxSteps_pushes_subset aid d mode _ q hq) 0 ft s []
        u (by rw [hrun]; exact hin) with h | h
    · simp at h
    · exact hu h
  try rw [hrun] at hbase
  try rw [hrun]
  cases e with
  | some k =>
    dsimp only
    by_cases hcond : mode = SyncMode.add ∧ 0 < ids1.length ∧ ¬(rbf = true)
    · rw [if_pos hcond, lookupUser_rollback, hbase]
      cases lookupUser s u with
      | none => rfl
      | some v => simp only [Option.map_some', if_neg hids]
    · rw [if_neg hcond]
      exact hbase
  | none =>
    dsimp only
    by_cases hcond : mode = SyncMode.add ∧ 0 < ids1.length
    · rw [if_pos hcond]
      by_cases hst : ft = some (chunkTxSteps aid d mode
          (getUsersFromOrgs s ch false)).length
      · rw [if_pos hst]
        by_cases hrb : rbf = true
        · rw [if_neg (fun hc => hc hrb)]
          exact hbase
        · rw [if_pos hrb, lookupUser_rollback, hbase]
          cases lookupUser s u with
          | none => rfl
          | some v => simp only [Option.map_some', if_neg hids]
      · rw [if_neg hst]
        exact hbase
    · rw [if_neg hcond]
      exact hbase

theorem hasAssign_removeOrgs_mem {s : Store} {ids : List String}
    {aid : String} {ro : OrgsList} {u : String} (hu : u ∈ ids) :
    hasAssign (removeOrgsFromAssignments s ids [aid] ro) u aid = false := by
  unfold hasAssign
  rw [lookupUser_removeOrgs]
  cases lookupUser s u with
  | none => simp
  | some v =>
    simp only [Option.map_some', if_pos hu]
    exact assignmentExists_strip_mem v (by simp)

theorem hasAssign_removeOrgs_imp {s : Store} {ids aids : List String}
    {ro : OrgsList} {u a : String}
    (h : hasAssign (removeOrgsFromAssignments s ids aids ro) u a = true) :
    hasAssign s u a = true := by
  unfold hasAssign at h ⊢
  rw [lookupUser_removeOrgs] at h
  cases hl : lookupUser s u with
  | none => rw [hl] at h; simp at h
  | some v =>
    rw [hl] at h
    simp only [Option.map_some'] at h
    by_cases hu : u ∈ ids
    · rw [if_pos hu] at h
      exact assignmentExists_strip_imp h
    · rw [if_neg hu] at h
      exact h

theorem foldl_remove_hasAssign (aid : String) (ro : OrgsList) :
    ∀ (cs : List (List String)) (s : Store) (u : String),
      (u ∈ cs.flatten ∨ hasAssign s u aid = false) →
      hasAssign (cs.foldl
        (fun st c => removeOrgsFromAssignments st c [aid] ro) s) u aid =
        false := by
  intro cs
  induction cs with
  | nil =>
    intro s u h
    rcases h with h | h
    · simp at h
    · exact h
  | cons c rest ih =>
    intro s u h
    simp only [List.foldl_cons]
    rcases h with h | h
    · simp only [List.flatten_cons] at h
      rcases List.mem_append.mp h with h1 | h1
      · refine ih _ u (Or.inr (hasAssign_removeOrgs_mem h1))
      · exact ih _ u (Or.inl h1)
    · refine ih _ u (Or.inr ?_)
      rw [Bool.eq_false_iff]
      intro hc
      rw [hasAssign_removeOrgs_imp hc] at h
      simp at h

theorem removeOrgs_keys (s : Store) (ids aids : List String) (ro : OrgsList) :
    (removeOrgsFromAssignments s ids aids ro).users.map Prod.fst =
      s.users.map Prod.fst := by
  unfold removeOrgsFromAssignments
  dsimp only
  exact mapEntries_keys _ _

theorem runTxSteps_keys {steps : List TxStep}
    (hsteps : ∀ q ∈ steps, ∀ st : Store,
      (q.2 st).users.map Prod.fst = st.users.map Prod.fst) :
    ∀ (k : Nat) (ft : Option Nat) (s : Store) (ids : List String),
      (runTxSteps steps k ft s ids).1.users.map Prod.fst =
        s.users.map Prod.fst := by
  induction steps with
  | nil => intro k ft s ids; rfl
  | cons step rest ih =>
    intro k ft s ids
    by_cases hf : ft = some k
    · simp only [runTxSteps, if_pos hf]
    · simp only [runTxSteps, if_neg hf]
      rw [ih (fun q hq => hsteps q (by simp [hq])) (k + 1) ft (step.2 s)
        (ids ++ step.1)]
      exact hsteps step (by simp) s

theorem chunkTxSteps_step_keys (aid : String) (d : AdminDoc)
    (mode : SyncMode) (users : List String) :
    ∀ q ∈ chunkTxSteps aid d mode users, ∀ st : Store,
      (q.2 st).users.map Prod.fst = st.users.map Prod.fst := by
  intro q hq st
  unfold chunkTxSteps at hq
  by_cases h0 : users.length = 0
  · rw [if_pos h0] at hq
    simp only [List.mem_singleton] at hq
    subst hq
    rfl
  · rw [if_neg h0] at hq
    by_cases h1 : users.length ≤ MAX_TRANSACTIONS
    · rw [if_pos h1] at hq
      cases mode <;> simp only [List.mem_singleton] at hq <;> subst hq <;>
        · dsimp only [updateAssignmentForUsers, addAssignmentToUsers]
          exact mapEntries_keys _ _
    · rw [if_neg h1] at hq
      rcases List.mem_cons.mp hq with hq | hq
      · subst hq; rfl
      · obtain ⟨c, _, hc⟩ := List.mem_map.mp hq
        cases mode <;> rw [← hc] <;>
          · dsimp only [updateAssignmentForUsers, addAssignmentToUsers]
            exact mapEntries_keys _ _

theorem handler_keys (s : Store) (aid : String) (d : AdminDoc)
    (ch : OrgsList) (mode : SyncMode) (ft : Option Nat) (rbf : Bool) :
    (updateAssignmentsForOrgChunkHandler s aid d ch mode ft
      rbf).1.users.map Prod.fst = s.users.map Prod.fst := by
  simp only [updateAssignmentsForOrgChunkHandler]
  rcases hrun : runTxSteps
      (chunkTxSteps aid d mode (getUsersFromOrgs s ch false)) 0 ft s []
    with ⟨s1, ids1, e⟩
  have hbase : s1.users.map Prod.fst = s.users.map Prod.fst := by
    have := runTxSteps_keys
      (chunkTxSteps_step_keys aid d mode (getUsersFromOrgs s ch false))
      0 ft s []
    rw [hrun] at this
    exact this
  try rw [hrun]
  cases e with
  | some k =>
    dsimp only
    by_cases hcond : mode = SyncMode.add ∧ 0 < ids1.length ∧ ¬(rbf = true)
    · rw [if_pos hcond]
      rw [show (rollbackAssignmentCreation s1 ids1 aid true).users =
        mapEntries s1.users (fun k u =>
          if k ∈ ids1 then stripAssignments [aid] u else u) from
        rollback_users_eq s1 ids1 aid true]
      rw [mapEntries_keys]
      exact hbase
    · rw [if_neg hcond]
      exact hbase
  | none =>
    dsimp only
    by_cases hcond : mode = SyncMode.add ∧ 0 < ids1.length
    · rw [if_pos hcond]
      by_cases hst : ft = some (chunkTxSteps aid d mode
          (getUsersFromOrgs s ch false)).length
      · rw [if_pos hst]
        by_cases hrb : rbf = true
        · rw [if_neg (fun hc => hc hrb)]
          exact hbase
        · rw [if_pos hrb]
          rw [show (rollbackAssignmentCreation s1 ids1 aid true).users =
            mapEntries s1.users (fun k u =>
              if k ∈ ids1 then stripAssignments [aid] u else u) from
            rollback_users_eq s1 ids1 aid true]
          rw [mapEntries_keys]
          exact hbase
      · rw [if_neg hst]
        exact hbase
    · rw [if_neg hcond]
      exact hbase

theorem updateAssignmentsLoop_frame_archived (aid : String) (d : AdminDoc)
    (ft : Nat → Option Nat) (rbf : Nat → Bool) :
    ∀ (chunks : List OrgsList) (i : Nat) (s : Store) (u : String)
      (v : UserDoc), (s.users.map Prod.fst).Nodup →
      lookupUser s u = some v → v.archived = true →
      lookupUser (updateAssignmentsLoop aid d ft rbf chunks i s).1 u =
        lookupUser s u := by
  intro chunks
  induction chunks with
  | nil => intro i s u v _ _ _; rfl
  | cons c rest ih =>
    intro i s u v hwf hl ha
    have hnm : u ∉ getUsersFromOrgs s c false :=
      archived_not_resolved hwf hl ha c
    have hframe := handler_frame_nonmember s aid d c SyncMode.update (ft i)
      (rbf i) u hnm
    simp only [updateAssignmentsLoop]
    by_cases hs : (updateAssignmentsForOrgChunkHandler s aid d c
        SyncMode.update (ft i) (rbf i)).2.success = true
    · rw [if_pos hs]
      have hwf' : ((updateAssignmentsForOrgChunkHandler s aid d c
          SyncMode.update (ft i) (rbf i)).1.users.map Prod.fst).Nodup := by
        rw [handler_keys]
        exact hwf
      have hl' : lookupUser (updateAssignmentsForOrgChunkHandler s aid d c
          SyncMode.update (ft i) (rbf i)).1 u = some v := by
        rw [hframe]
        exact hl
      rw [ih (i + 1) _ u v hwf' hl' ha]
      exact hframe
    · rw [if_neg hs]
      exact hframe

theorem foldl_remove_keys (aid : String) (ro : OrgsList) :
    ∀ (cs : List (List String)) (s : Store),
      ((cs.foldl (fun st c => removeOrgsFromAssignments st c [aid] ro)
        s).users.map Prod.fst) = s.users.map Prod.fst := by
  intro cs
  induction cs with
  | nil => intro s; rfl
  | cons c rest ih =>
    intro s
    simp only [List.foldl_cons]
    rw [ih (removeOrgsFromAssignments s c [aid] ro), removeOrgs_keys]

theorem removeOrgs_archived {s : Store} {ids aids : List String}
    {ro : OrgsList} {u : String} {v : UserDoc}
    (hl : lookupUser s u = some v) (ha : v.archived = true) :
    ∃ v', lookupUser (removeOrgsFromAssignments s ids aids ro) u = some v' ∧
      v'.archived = true := by
  rw [lookupUser_removeOrgs, hl]
  by_cases hu : u ∈ ids
  · exact ⟨stripAssignments aids v, by simp [if_pos hu],
      by rw [stripAssignments_archived]; exact ha⟩
  · exact ⟨v, by simp [if_neg hu], ha⟩

theorem foldl_remove_archived (aid : String) (ro : OrgsList) :
    ∀ (cs : List (List String)) (s : Store) (u : String) (v : UserDoc),
      lookupUser s u = some v → v.archived = true →
      ∃ v', lookupUser ((cs.foldl
        (fun st c => removeOrgsFromAssignments st c [aid] ro) s)) u =
        some v' ∧ v'.archived = true := by
  intro cs
  induction cs with
  | nil => intro s u v hl ha; exact ⟨v, hl, ha⟩
  | cons c rest ih =>
    intro s u v hl ha
    simp only [List.foldl_cons]
    obtain ⟨v', hl', ha'⟩ := @removeOrgs_archived s c [aid] ro u v hl ha
    exact ih _ u v' hl' ha'

/-- C7: every membership resolution of the Add/Update chunk writer passes
`includeArchived := false`, so archived users never gain assignments — their
documents are untouched by the chunk handler in any mode and under any
fault; and the removal phase of `updateAssignments` resolves with
`includeArchived := true`, so an archived user belonging to the removed
orgs' closure loses the stale assignment by the end of the update. -/
theorem c7_archived_handling :
    (∀ (s : Store) (aid : String) (d : AdminDoc) (ch : OrgsList)
        (mode : SyncMode) (ft : Option Nat) (rbf : Bool) (u : String)
        (v : UserDoc), (s.users.map Prod.fst).Nodup →
      lookupUser s u = some v → v.archived = true →
      lookupUser (updateAssignmentsForOrgChunkHandler s aid d ch mode ft
        rbf).1 u = lookupUser s u) ∧
    (∀ (s : Store) (aid : String) (prev curr : AdminDoc)
        (ft : Nat → Option Nat) (rbf : Nat → Bool) (u : String)
        (v : UserDoc), (s.users.map Prod.fst).Nodup →
      lookupUser s u = some v → v.archived = true →
      0 < (computedRemovedOrgs (adminOrgs prev) (adminOrgs curr)).numOrgs →
      u ∈ getUsersFromOrgs s (getExhaustiveOrgs s (getOnlyExistingOrgs s
        (computedRemovedOrgs (adminOrgs prev) (adminOrgs curr))) true) true →
      hasAssign (updateAssignments s aid prev curr ft rbf).1 u aid =
        false) := by
  constructor
  · intro s aid d ch mode ft rbf u v hwf hl ha
    exact handler_frame_nonmember s aid d ch mode ft rbf u
      (archived_not_resolved hwf hl ha ch)
  · intro s aid prev curr ft rbf u v hwf hl ha hnum hmem
    simp only [updateAssignments]
    rw [if_pos hnum]
    have hs1 : ∀ s1 : Store,
        (s1.users.map Prod.fst = s.users.map Prod.fst) →
        (∃ v', lookupUser s1 u = some v' ∧ v'.archived = true) →
        hasAssign s1 u aid = false →
        hasAssign (updateAssignmentsLoop aid curr ft rbf
          (chunkOrgs (standardizeAdministrationOrgs s1 aid curr).2 100) 0
          (standardizeAdministrationOrgs s1 aid curr).1).1 u aid = false := by
      intro s1 hkeys ⟨v', hl', ha'⟩ hfalse
      have hwf' : (((standardizeAdministrationOrgs s1 aid
          curr).1).users.map Prod.fst).Nodup := by
        show ((s1.users.map Prod.fst)).Nodup
        rw [hkeys]
        exact hwf
      have hloop := updateAssignmentsLoop_frame_archived aid curr ft rbf
        (chunkOrgs (standardizeAdministrationOrgs s1 aid curr).2 100) 0
        (standardizeAdministrationOrgs s1 aid curr).1 u v' hwf'
        (by rw [lookupUser_standardize]; exact hl') ha'
      unfold hasAssign at hfalse ⊢
      rw [hloop, lookupUser_standardize]
      exact hfalse
    by_cases hle : (getUsersFromOrgs s (getExhaustiveOrgs s
        (getOnlyExistingOrgs s (computedRemovedOrgs (adminOrgs prev)
          (adminOrgs curr))) true) true).length ≤ MAX_TRANSACTIONS
    · rw [if_pos hle]
      refine hs1 _ (removeOrgs_keys _ _ _ _) ?_
        (hasAssign_removeOrgs_mem hmem)
      exact removeOrgs_archived hl ha
    · rw [if_neg hle]
      refine hs1 _ (foldl_remove_keys aid _ _ s) ?_ ?_
      · exact foldl_remove_archived aid _ _ s u v hl ha
      · refine foldl_remove_hasAssign aid _ _ s u (Or.inl ?_)
        rw [chunkList_flatten]
        exact hmem

/-- C7 witness: on the concrete store, the Add-mode chunk handler leaves the
archived user's document untouched, and the update of the administration
that drops district `d1` removes the archived user's stale assignment. -/
theorem c7_witness :
    lookupUser (updateAssignmentsForOrgChunkHandler sampleStoreArchived "a1"
      sampleAdminDoc (OrgsList.mk ["d1"] [] [] []) SyncMode.add none
      false).1 "ua" = lookupUser sampleStoreArchived "ua" ∧
    hasAssign (updateAssignments sampleStoreArchived "a1" sampleAdminDoc
      sampleAdminDocNoOrgs noFail noRollbackFail).1 "ua" "a1" = false := by
  refine ⟨c7_archived_handling.1 sampleStoreArchived "a1" sampleAdminDoc
      (OrgsList.mk ["d1"] [] [] []) SyncMode.add none false "ua"
      sampleArchivedUser (by decide) (by decide) (by decide), ?_⟩
  exact c7_archived_handling.2 sampleStoreArchived "a1" sampleAdminDoc
    sampleAdminDocNoOrgs noFail noRollbackFail "ua" sampleArchivedUser
    (by decide) (by decide) (by decide) (by decide) (by decide)

/-! ## Claims C4 and C5: the upsert paths -/

theorem runTxSteps_admins (steps : List TxStep)
    (hsteps : ∀ q ∈ steps, ∀ st : Store,
      (q.2 st).administrations = st.administrations) :
    ∀ (k : Nat) (ft : Option Nat) (s : Store) (ids : List String),
      ((runTxSteps steps k ft s ids).1).administrations =
        s.administrations := by
  induction steps with
  | nil => intro k ft s ids; rfl
  | cons q rest ih =>
    intro k ft s ids
    unfold runTxSteps
    by_cases hft : ft = some k
    · rw [if_pos hft]
    · rw [if_neg hft]
      rw [ih (fun p hp => hsteps p (by simp [hp])) (k + 1) ft (q.2 s)
        (ids ++ q.1)]
      exact hsteps q (by simp) s

theorem handler_update_admins (s : Store) (aid : String) (d : AdminDoc)
    (ch : OrgsList) (ft : Option Nat) (rbf : Bool) :
    (updateAssignmentsForOrgChunkHandler s aid d ch SyncMode.update ft
      rbf).1.administrations = s.administrations := by
  simp only [updateAssignmentsForOrgChunkHandler]
  rcases hrun : runTxSteps
      (chunkTxSteps aid d SyncMode.update (getUsersFromOrgs s ch false)) 0 ft
      s []
    with ⟨s1, ids1, e⟩
  have hbase := runTxSteps_admins
    (chunkTxSteps aid d SyncMode.update (getUsersFromOrgs s ch false))
    (chunkTxSteps_admins aid d SyncMode.update _) 0 ft s []
  try rw [hrun] at hbase
  try rw [hrun]
  cases e with
  | some k =>
    dsimp only
    by_cases hcond : SyncMode.update = SyncMode.add ∧ 0 < ids1.length ∧
        ¬(rbf = true)
    · exact absurd hcond.1 (by simp)
    · rw [if_neg hcond]
      exact hbase
  | none =>
    dsimp only
    by_cases hcond : SyncMode.update = SyncMode.add ∧ 0 < ids1.length
    · exact absurd hcond.1 (by simp)
    · rw [if_neg hcond]
      exact hbase

theorem updateAssignmentsLoop_admins (aid : String) (d : AdminDoc)
    (ft : Nat → Option Nat) (rbf : Nat → Bool) :
    ∀ (cs : List OrgsList) (i : Nat) (s : Store),
      ((updateAssignmentsLoop aid d ft rbf cs i s).1).administrations =
        s.administrations := by
  intro cs
  induction cs with
  | nil => intro i s; rfl
  | cons c rest ih =>
    intro i s
    simp only [updateAssignmentsLoop]
    by_cases hs : (updateAssignmentsForOrgChunkHandler s aid d c
        SyncMode.update (ft i) (rbf i)).2.success = true
    · rw [if_pos hs, ih]
      exact handler_update_admins s aid d c (ft i) (rbf i)
    · rw [if_neg hs]
      exact handler_update_admins s aid d c (ft i) (rbf i)

theorem foldl_remove_admins (aid : String) (ro : OrgsList) :
    ∀ (cs : List (List String)) (s : Store),
      ((cs.foldl (fun st c => removeOrgsFromAssignments st c [aid] ro)
        s)).administrations = s.administrations := by
  intro cs
  induction cs with
  | nil => intro s; rfl
  | cons c rest ih =>
    intro s
    simp only [List.foldl_cons]
    rw [ih]
    exact admins_removeOrgs _ _ _ _

theorem updateAssignments_admin_fields (s : Store) (aid : String)
    (prev curr : AdminDoc) (ft : Nat → Option Nat) (rbf : Nat → Bool)
    (v : AdminDoc) (hl : lookupAdmin s aid = some v) :
    ∃ o, lookupAdmin (updateAssignments s aid prev curr ft rbf).1 aid =
      some { v with orgs := o } := by
  simp only [updateAssignments]
  by_cases hnum :
      0 < (computedRemovedOrgs (adminOrgs prev) (adminOrgs curr)).numOrgs
  · rw [if_pos hnum]
    have key : ∀ s1 : Store, s1.administrations = s.administrations →
        ∃ o, lookupAdmin (updateAssignmentsLoop aid curr ft rbf
          (chunkOrgs (standardizeAdministrationOrgs s1 aid curr).2 100) 0
          (standardizeAdministrationOrgs s1 aid curr).1).1 aid =
          some { v with orgs := o } := by
      intro s1 hadm
      refine ⟨(standardizeAdministrationOrgs s1 aid curr).2, ?_⟩
      have hl1 : lookupAdmin s1 aid = some v := by
        show lookupIn s1.administrations aid = some v
        rw [hadm]
        exact hl
      have hloop := updateAssignmentsLoop_admins aid curr ft rbf
        (chunkOrgs (standardizeAdministrationOrgs s1 aid curr).2 100) 0
        (standardizeAdministrationOrgs s1 aid curr).1
      show lookupIn _ aid = _
      rw [hloop]
      have := lookupAdmin_standardize s1 aid curr aid
      rw [hl1] at this
      simpa using this
    by_cases hle : (getUsersFromOrgs s (getExhaustiveOrgs s
        (getOnlyExistingOrgs s (computedRemovedOrgs (adminOrgs prev)
          (adminOrgs curr))) true) true).length ≤ MAX_TRANSACTIONS
    · rw [if_pos hle]
      exact key _ (admins_removeOrgs _ _ _ _)
    · rw [if_neg hle]
      exact key _ (foldl_remove_admins aid _ _ s)
  · rw [if_neg hnum]
    have key : ∃ o, lookupAdmin (updateAssignmentsLoop aid curr ft rbf
        (chunkOrgs (standardizeAdministrationOrgs s aid curr).2 100) 0
        (standardizeAdministrationOrgs s aid curr).1).1 aid =
        some { v with orgs := o } := by
      refine ⟨(standardizeAdministrationOrgs s aid curr).2, ?_⟩
      have hloop := updateAssignmentsLoop_admins aid curr ft rbf
        (chunkOrgs (standardizeAdministrationOrgs s aid curr).2 100) 0
        (standardizeAdministrationOrgs s aid curr).1
      show lookupIn _ aid = _
      rw [hloop]
      have := lookupAdmin_standardize s aid curr aid
      rw [hl] at this
      simpa using this
    exact key

/-- C4: on the update path (an administration id was supplied and the
document existed, with authorization and validation passing), a failing
assignment-sync step compensates only user-level effects: the operation
still returns ok with the administration id, and the administration document
keeps every newly written field — name, public name, normalized name, open
and close dates, assessments and the sequential flag are exactly those of
the request's field update; only the orgs field is rewritten (by the
standardization step, not reverted to the previous contents). -/
theorem c4_update_sync_failure_not_reverted (s : Store) (caller : String)
    (data : UpsertData) (newDocId : String) (ft : Nat → Option Nat)
    (rbf : Nat → Bool) (aid : String) (dOpen dClose : Int)
    (prevDoc : AdminDoc)
    (haid : data.administrationId = some aid)
    (hauth : authCheck s caller = none)
    (hval : validateInput data = Except.ok (dOpen, dClose))
    (hprev : lookupAdmin s aid = some prevDoc)
    (hfail : (upsertAdministrationHandler s caller data newDocId ft
      rbf).syncFailed = true) :
    (upsertAdministrationHandler s caller data newDocId ft rbf).result =
      UpsertResult.ok aid ∧
    ∃ o, lookupAdmin (upsertAdministrationHandler s caller data newDocId ft
      rbf).store aid =
      some { applyAdministrationUpdate prevDoc data dOpen dClose with
             orgs := o } := by
  have hTx : upsertTransaction s caller data dOpen dClose newDocId =
      Except.ok
        ({ s with
            administrations :=
              updateEntry s.administrations aid fun old =>
                applyAdministrationUpdate old data dOpen dClose },
         aid) := by
    simp only [upsertTransaction, haid, hprev]
  have hLookTx : lookupAdmin
      { s with
          administrations :=
            updateEntry s.administrations aid fun old =>
              applyAdministrationUpdate old data dOpen dClose }
      aid = some (applyAdministrationUpdate prevDoc data dOpen dClose) := by
    show lookupIn (updateEntry s.administrations aid fun old =>
      applyAdministrationUpdate old data dOpen dClose) aid = _
    rw [lookupIn_updateEntry_self]
    rw [show lookupIn s.administrations aid = some prevDoc from hprev]
    rfl
  have hIsNone : data.administrationId.isNone = false := by
    rw [haid]; rfl
  have hPrevData : data.administrationId.bind (fun a => lookupAdmin s a) =
      some prevDoc := by
    rw [haid]
    exact hprev
  simp only [upsertAdministrationHandler, hauth, hval, hTx, hLookTx, hIsNone,
    hPrevData, Bool.false_eq_true, if_false] at hfail ⊢
  by_cases hr : (updateAssignments
      { s with
          administrations :=
            updateEntry s.administrations aid fun old =>
              applyAdministrationUpdate old data dOpen dClose }
      aid prevDoc (applyAdministrationUpdate prevDoc data dOpen dClose) ft
      rbf).2 = true
  · rw [if_pos hr] at hfail
    exact absurd hfail (by simp)
  · rw [if_neg hr]
    refine ⟨rfl, ?_⟩
    exact updateAssignments_admin_fields _ aid prevDoc
      (applyAdministrationUpdate prevDoc data dOpen dClose) ft rbf
      (applyAdministrationUpdate prevDoc data dOpen dClose) hLookTx

/-- C5 counterexample: a creation request (no administration id) whose
assignment sync fails surfaces `internal`, while the same sync failure on an
update of the existing `a1` returns ok — the opposite of the claimed "update
path only". -/
theorem c5_counterexample :
    sampleCreateData.administrationId = none ∧
    (upsertAdministrationHandler sampleStore "c1" sampleCreateData "n1"
      failFirstTx noRollbackFail).syncFailed = true ∧
    (upsertAdministrationHandler sampleStore "c1" sampleCreateData "n1"
      failFirstTx noRollbackFail).result =
      UpsertResult.err ErrCode.internal ∧
    (upsertAdministrationHandler sampleStore "c1" sampleUpsertData "n1"
      failFirstTx noRollbackFail).syncFailed = true ∧
    (upsertAdministrationHandler sampleStore "c1" sampleUpsertData "n1"
      failFirstTx noRollbackFail).result = UpsertResult.ok "a1" := by
  refine ⟨rfl, ?_, ?_, ?_, ?_⟩ <;> decide

theorem authCheck_err (s : Store) (uid : String) (e : ErrCode)
    (h : authCheck s uid = some e) : e = ErrCode.permissionDenied := by
  unfold authCheck at h
  cases hl : lookupIn s.userClaims uid with
  | none =>
    rw [hl] at h
    exact (Option.some.inj h).symm
  | some c =>
    rw [hl] at h
    dsimp only at h
    by_cases hc : c.admin = true ∨ c.superAdmin = true
    · rw [if_pos hc] at h
      exact Option.noConfusion h
    · rw [if_neg hc] at h
      exact (Option.some.inj h).symm

theorem validateInput_err (data : UpsertData) (e : ErrCode)
    (h : validateInput data = Except.error e) :
    e = ErrCode.invalidArgument := by
  unfold validateInput at h
  split at h
  · split at h
    · exact (Except.error.inj h).symm
    · split at h
      · exact (Except.error.inj h).symm
      · exact Except.noConfusion h
  · exact (Except.error.inj h).symm

/-- C5 (amended): an `internal` error caused by an assignment-sync failure
after the administration record has been committed is surfaced exactly on
the create path (no administration id supplied); when an administration id
was supplied, a sync failure is logged only and the operation still returns
ok with that id — and, whatever happens, an update request's outcome is
always ok with that id or one of invalid-argument, not-found,
permission-denied, never `internal`. -/
theorem c5_internal_surfacing_amended :
    (∀ (s : Store) (caller : String) (data : UpsertData) (newDocId : String)
        (ft : Nat → Option Nat) (rbf : Nat → Bool),
      data.administrationId = none →
      (upsertAdministrationHandler s caller data newDocId ft
        rbf).syncFailed = true →
      (upsertAdministrationHandler s caller data newDocId ft rbf).result =
        UpsertResult.err ErrCode.internal) ∧
    (∀ (s : Store) (caller : String) (data : UpsertData) (newDocId : String)
        (ft : Nat → Option Nat) (rbf : Nat → Bool) (aid : String),
      data.administrationId = some aid →
      (upsertAdministrationHandler s caller data newDocId ft
        rbf).syncFailed = true →
      (upsertAdministrationHandler s caller data newDocId ft rbf).result =
        UpsertResult.ok aid) ∧
    (∀ (s : Store) (caller : String) (data : UpsertData) (newDocId : String)
        (ft : Nat → Option Nat) (rbf : Nat → Bool) (aid : String),
      data.administrationId = some aid →
      (upsertAdministrationHandler s caller data newDocId ft rbf).result =
        UpsertResult.ok aid ∨
      (upsertAdministrationHandler s caller data newDocId ft rbf).result =
        UpsertResult.err ErrCode.invalidArgument ∨
      (upsertAdministrationHandler s caller data newDocId ft rbf).result =
        UpsertResult.err ErrCode.notFound ∨
      (upsertAdministrationHandler s caller data newDocId ft rbf).result =
        UpsertResult.err ErrCode.permissionDenied) := by
  refine ⟨?_, ?_, ?_⟩
  · intro s caller data newDocId ft rbf hnone
    unfold upsertAdministrationHandler
    cases hac : authCheck s caller with
    | some e => intro hsf; exact absurd hsf (by simp)
    | none =>
      cases hval : validateInput data with
      | error e => intro hsf; exact absurd hsf (by simp)
      | ok p =>
        obtain ⟨dO, dC⟩ := p
        dsimp only
        cases htx : upsertTransaction s caller data dO dC newDocId with
        | error e => intro hsf; exact absurd hsf (by simp)
        | ok p2 =>
          obtain ⟨sTx, nid⟩ := p2
          dsimp only
          cases hla : lookupAdmin sTx nid with
          | none => intro hsf; exact absurd hsf (by simp)
          | some ad =>
            dsimp only
            rw [hnone]
            rw [if_pos (by simp : (Option.isNone (none : Option String)) =
              true)]
            cases hcb : ad.createdBy with
            | none => intro hsf; exact absurd hsf (by simp)
            | some cu =>
              dsimp only
              by_cases hr : (createAssignments sTx nid ad (some cu) true ft
                  rbf).2 = true
              · rw [if_pos hr]
                intro hsf; exact absurd hsf (by simp)
              · rw [if_neg hr]
                intro _; rfl
  · intro s caller data newDocId ft rbf aid haid
    unfold upsertAdministrationHandler
    cases hac : authCheck s caller with
    | some e => intro hsf; exact absurd hsf (by simp)
    | none =>
      cases hval : validateInput data with
      | error e => intro hsf; exact absurd hsf (by simp)
      | ok p =>
        obtain ⟨dO, dC⟩ := p
        dsimp only
        have hTx2 : upsertTransaction s caller data dO dC newDocId =
            Except.error ErrCode.notFound ∨
            ∃ st, upsertTransaction s caller data dO dC newDocId =
              Except.ok (st, aid) := by
          unfold upsertTransaction
          rw [haid]
          dsimp only
          cases lookupAdmin s aid with
          | none => exact Or.inl rfl
          | some prev => exact Or.inr ⟨_, rfl⟩
        rcases hTx2 with hTx2 | ⟨st, hTx2⟩
        · rw [hTx2]
          intro hsf; exact absurd hsf (by simp)
        · rw [hTx2]
          dsimp only
          cases hla : lookupAdmin st aid with
          | none => intro _; rfl
          | some ad =>
            dsimp only
            rw [haid]
            rw [if_neg (by simp :
              ¬((Option.isNone (some aid)) = true))]
            try dsimp only [Option.bind]
            try dsimp only
            cases hpd : lookupAdmin s aid with
            | some prev =>
              try dsimp only
              by_cases hr : (updateAssignments st aid prev ad ft rbf).2 =
                  true
              · rw [if_pos hr]
                intro _; rfl
              · rw [if_neg hr]
                intro _; rfl
            | none =>
              try dsimp only
              cases hcb : ad.createdBy with
              | none => intro _; rfl
              | some cu =>
                dsimp only
                by_cases hr : (createAssignments st aid ad (some cu) true ft
                    rbf).2 = true
                · rw [if_pos hr]
                  intro _; rfl
                · rw [if_neg hr]
                  intro _; rfl
  · intro s caller data newDocId ft rbf aid haid
    unfold upsertAdministrationHandler
    cases hac : authCheck s caller with
    | some e =>
      have he := authCheck_err s caller e hac
      subst he
      exact Or.inr (Or.inr (Or.inr rfl))
    | none =>
      cases hval : validateInput data with
      | error e =>
        have he := validateInput_err data e hval
        subst he
        exact Or.inr (Or.inl rfl)
      | ok p =>
        obtain ⟨dO, dC⟩ := p
        dsimp only
        have hTx2 : upsertTransaction s caller data dO dC newDocId =
            Except.error ErrCode.notFound ∨
            ∃ st, upsertTransaction s caller data dO dC newDocId =
              Except.ok (st, aid) := by
          unfold upsertTransaction
          rw [haid]
          dsimp only
          cases lookupAdmin s aid with
          | none => exact Or.inl rfl
          | some prev => exact Or.inr ⟨_, rfl⟩
        rcases hTx2 with hTx2 | ⟨st, hTx2⟩
        · rw [hTx2]
          exact Or.inr (Or.inr (Or.inl rfl))
        · rw [hTx2]
          dsimp only
          cases hla : lookupAdmin st aid with
          | none => exact Or.inl rfl
          | some ad =>
            dsimp only
            rw [haid]
            rw [if_neg (by simp :
              ¬((Option.isNone (some aid)) = true))]
            try dsimp only [Option.bind]
            try dsimp only
            cases hpd : lookupAdmin s aid with
            | some prev =>
              try dsimp only
              by_cases hr : (updateAssignments st aid prev ad ft rbf).2 =
                  true
              · rw [if_pos hr]
                exact Or.inl rfl
              · rw [if_neg hr]
                exact Or.inl rfl
            | none =>
              try dsimp only
              cases hcb : ad.createdBy with
              | none => exact Or.inl rfl
              | some cu =>
                dsimp only
                by_cases hr : (createAssignments st aid ad (some cu) true ft
                    rbf).2 = true
                · rw [if_pos hr]
                  exact Or.inl rfl
                · rw [if_neg hr]
                  exact Or.inl rfl

/-- C5 witness: the failing create surfaces `internal`; the failing update
of `a1` still returns ok; the update's outcome is in the typed-result
set. -/
theorem c5_witness :
    (upsertAdministrationHandler sampleStore "c1" sampleCreateData "n2"
      failFirstTx noRollbackFail).result =
      UpsertResult.err ErrCode.internal ∧
    (upsertAdministrationHandler sampleStore "c1" sampleUpsertData "n2"
      failFirstTx noRollbackFail).result = UpsertResult.ok "a1" ∧
    ((upsertAdministrationHandler sampleStore "c1" sampleUpsertData "n2"
      noFail noRollbackFail).result = UpsertResult.ok "a1" ∨
     (upsertAdministrationHandler sampleStore "c1" sampleUpsertData "n2"
      noFail noRollbackFail).result = UpsertResult.err
        ErrCode.invalidArgument ∨
     (upsertAdministrationHandler sampleStore "c1" sampleUpsertData "n2"
      noFail noRollbackFail).result = UpsertResult.err ErrCode.notFound ∨
     (upsertAdministrationHandler sampleStore "c1" sampleUpsertData "n2"
      noFail noRollbackFail).result = UpsertResult.err
        ErrCode.permissionDenied) :=
  ⟨c5_internal_surfacing_amended.1 sampleStore "c1" sampleCreateData "n2"
    failFirstTx noRollbackFail rfl (by decide),
   c5_internal_surfacing_amended.2.1 sampleStore "c1" sampleUpsertData "n2"
    failFirstTx noRollbackFail "a1" rfl (by decide),
   c5_internal_surfacing_amended.2.2 sampleStore "c1" sampleUpsertData "n2"
    noFail noRollbackFail "a1" rfl⟩

/-- C4 witness: renaming `a1` with a first-transaction fault injected into
the sync leaves the renamed document in place and still returns ok. -/
theorem c4_witness :
    (upsertAdministrationHandler sampleStore "c1" sampleUpsertData "n1"
      failFirstTx noRollbackFail).result = UpsertResult.ok "a1" ∧
    ∃ o, lookupAdmin (upsertAdministrationHandler sampleStore "c1"
      sampleUpsertData "n1" failFirstTx noRollbackFail).store "a1" =
      some { applyAdministrationUpdate sampleAdminDoc sampleUpsertData 1 9
             with orgs := o } :=
  c4_update_sync_failure_not_reverted sampleStore "c1" sampleUpsertData "n1"
    failFirstTx noRollbackFail "a1" 1 9 sampleAdminDoc rfl rfl rfl rfl rfl

/-! ## Claim C9: the cohort-parent invariant of the org upsert -/

theorem groupsParentOk_modify (s : Store) (c oid : String)
    (f : OrgDoc → OrgDoc)
    (hf : ∀ v : OrgDoc, groupDocOk v = true → groupDocOk (f v) = true)
    (hinv : groupsParentOk s = true) :
    groupsParentOk (modifyOrgColl s c oid f) = true := by
  unfold modifyOrgColl
  by_cases h1 : c = "districts"
  · rw [if_pos h1]; exact hinv
  rw [if_neg h1]
  by_cases h2 : c = "schools"
  · rw [if_pos h2]; exact hinv
  rw [if_neg h2]
  by_cases h3 : c = "classes"
  · rw [if_pos h3]; exact hinv
  rw [if_neg h3]
  by_cases h4 : c = "groups"
  · rw [if_pos h4]
    simp only [groupsParentOk] at hinv ⊢
    rw [List.all_eq_true] at hinv ⊢
    intro p hp
    simp only [updateEntry] at hp
    obtain ⟨q, hq, hpq⟩ := mem_mapEntries hp
    rw [hpq]
    dsimp only
    by_cases ho : q.1 = oid
    · rw [if_pos ho]
      exact hf q.2 (hinv q hq)
    · rw [if_neg ho]
      exact hinv q hq
  · rw [if_neg h4]
    exact hinv

theorem groupsParentOk_modify_other (s : Store) (c oid : String)
    (f : OrgDoc → OrgDoc) (hc : c ≠ "groups")
    (hinv : groupsParentOk s = true) :
    groupsParentOk (modifyOrgColl s c oid f) = true := by
  unfold modifyOrgColl
  by_cases h1 : c = "districts"
  · rw [if_pos h1]; exact hinv
  rw [if_neg h1]
  by_cases h2 : c = "schools"
  · rw [if_pos h2]; exact hinv
  rw [if_neg h2]
  by_cases h3 : c = "classes"
  · rw [if_pos h3]; exact hinv
  rw [if_neg h3]
  rw [if_neg hc]
  exact hinv

theorem groupDocOk_merge (d : OrgUpsertFields)
    (hpt : ∀ t, d.parentOrgType = some t → t = "district") :
    ∀ v : OrgDoc, groupDocOk v = true →
      groupDocOk (mergeOrgFields d v) = true := by
  intro v hv
  have hp : (mergeOrgFields d v).parentOrgType =
      d.parentOrgType.orElse (fun _ => v.parentOrgType) := rfl
  unfold groupDocOk
  rw [hp]
  cases hdt : d.parentOrgType with
  | none =>
    dsimp only [Option.orElse]
    exact hv
  | some t =>
    have ht := hpt t hdt
    subst ht
    dsimp only [Option.orElse]
    decide

theorem groupsParentOk_updateCommit (s : Store) (orgType oid : String)
    (old : OrgDoc) (d : OrgUpsertFields)
    (hinv : groupsParentOk s = true)
    (hpt : orgType = "groups" → ∀ t, d.parentOrgType = some t →
      t = "district") :
    groupsParentOk (upsertOrgUpdateCommit s orgType oid old d) = true := by
  by_cases horg : orgType = "groups"
  · subst horg
    simp only [upsertOrgUpdateCommit]
    rw [if_pos trivial]
    refine groupsParentOk_modify _ _ _ _ (groupDocOk_merge d (hpt rfl)) ?_
    cases hpi : d.parentOrgId with
    | none => exact hinv
    | some np =>
      dsimp only
      by_cases hcond : old.parentOrgId ≠ some np ∨
          old.parentOrgType ≠ d.parentOrgType
      · rw [if_pos hcond]
        refine groupsParentOk_modify _ _ _ _ (fun v hv => hv) ?_
        cases hpo : old.parentOrgId with
        | none => exact hinv
        | some op =>
          cases hpt2 : old.parentOrgType with
          | none => exact hinv
          | some opt =>
            exact groupsParentOk_modify _ _ _ _ (fun v hv => hv) hinv
      · rw [if_neg hcond]
        exact hinv
  · simp only [upsertOrgUpdateCommit]
    rw [if_neg horg]
    refine groupsParentOk_modify_other _ orgType oid _ horg ?_
    by_cases hcl : orgType = "classes"
    · rw [if_pos hcl]
      cases hsi : d.schoolId with
      | none => exact hinv
      | some ns =>
        dsimp only
        by_cases hcond : old.schoolId ≠ some ns
        · rw [if_pos hcond]
          refine groupsParentOk_modify _ _ _ _ (fun v hv => hv) ?_
          cases hos : old.schoolId with
          | none => exact hinv
          | some os =>
            exact groupsParentOk_modify _ _ _ _ (fun v hv => hv) hinv
        · rw [if_neg hcond]
          exact hinv
    · rw [if_neg hcl]
      by_cases hsc : orgType = "schools"
      · rw [if_pos hsc]
        cases hdi : d.districtId with
        | none => exact hinv
        | some nd =>
          dsimp only
          by_cases hcond : old.districtId ≠ some nd
          · rw [if_pos hcond]
            refine groupsParentOk_modify _ _ _ _ (fun v hv => hv) ?_
            cases hod : old.districtId with
            | none => exact hinv
            | some od =>
              exact groupsParentOk_modify _ _ _ _ (fun v hv => hv) hinv
          · rw [if_neg hcond]
            exact hinv
      · rw [if_neg hsc]
        exact hinv

theorem groupsParentOk_createCommit (s : Store) (uid orgType : String)
    (d : OrgUpsertFields) (nid : String)
    (h4 : orgType = "districts" ∨ orgType = "schools" ∨
      orgType = "classes" ∨ orgType = "groups")
    (hinv : groupsParentOk s = true)
    (hpt : orgType = "groups" → ∀ t, d.parentOrgType = some t →
      t = "district") :
    groupsParentOk (upsertOrgCreateCommit s uid orgType d nid) = true := by
  rcases h4 with h | h | h | h
  · subst h
    simp only [upsertOrgCreateCommit]
    rw [if_pos trivial, if_neg (by decide : ¬("districts" : String) = "groups"),
      if_neg (by decide : ¬("districts" : String) = "classes"),
      if_neg (by decide : ¬("districts" : String) = "schools")]
    exact hinv
  · subst h
    simp only [upsertOrgCreateCommit]
    rw [if_neg (by decide : ¬("schools" : String) = "districts"),
      if_pos trivial, if_neg (by decide : ¬("schools" : String) = "groups"),
      if_neg (by decide : ¬("schools" : String) = "classes"),
      if_pos trivial]
    cases hdi : d.districtId with
    | none => exact hinv
    | some nd =>
      exact groupsParentOk_modify _ _ _ _ (fun v hv => hv) hinv
  · subst h
    simp only [upsertOrgCreateCommit]
    rw [if_neg (by decide : ¬("classes" : String) = "districts"),
      if_neg (by decide : ¬("classes" : String) = "schools"), if_pos trivial,
      if_neg (by decide : ¬("classes" : String) = "groups"), if_pos trivial]
    cases hsi : d.schoolId with
    | none => exact hinv
    | some ns =>
      exact groupsParentOk_modify _ _ _ _ (fun v hv => hv) hinv
  · subst h
    simp only [upsertOrgCreateCommit]
    rw [if_neg (by decide : ¬("groups" : String) = "districts"),
      if_neg (by decide : ¬("groups" : String) = "schools"),
      if_neg (by decide : ¬("groups" : String) = "classes"), if_pos trivial]
    have hdoc : groupDocOk (newOrgDoc uid d) = true := by
      have hp : (newOrgDoc uid d).parentOrgType = d.parentOrgType := rfl
      unfold groupDocOk
      rw [hp]
      cases hdt : d.parentOrgType with
      | none => rfl
      | some t =>
        have ht := hpt rfl t hdt
        subst ht
        decide
    have hs1 : groupsParentOk
        { s with groups := s.groups ++ [(nid, newOrgDoc uid d)] } =
        true := by
      simp only [groupsParentOk] at hinv ⊢
      rw [List.all_append, hinv]
      simp [hdoc]
    cases hpi : d.parentOrgId with
    | none =>
      cases hpt3 : d.parentOrgType with
      | none => exact hs1
      | some pt => exact hs1
    | some pid =>
      cases hpt3 : d.parentOrgType with
      | none => exact hs1
      | some pt =>
        exact groupsParentOk_modify _ _ _ _ (fun v hv => hv) hs1

/-- C9: a cohort (groups) upsert whose supplied parent type is set and is
not `"district"` is rejected with invalid-argument and writes nothing, on
the create path and (for an existing cohort) on the update path; and every
call to the org upsert — any kind, any path, any outcome — preserves the
invariant that each stored cohort's parent type, if set, is
`"district"`. -/
theorem c9_cohort_parent_invariant :
    (∀ (s : Store) (uid : String) (d : OrgUpsertFields) (nid t : String),
      d.parentOrgType = some t → t ≠ "district" →
      upsertOrg s uid none "groups" d nid =
        (s, OrgUpsertResult.err ErrCode.invalidArgument)) ∧
    (∀ (s : Store) (uid oid : String) (d : OrgUpsertFields) (nid t : String)
        (old : OrgDoc), lookupOrgColl s "groups" oid = some old →
      d.parentOrgType = some t → t ≠ "district" →
      upsertOrg s uid (some oid) "groups" d nid =
        (s, OrgUpsertResult.err ErrCode.invalidArgument)) ∧
    (∀ (s : Store) (uid : String) (orgId : Option String) (orgType : String)
        (d : OrgUpsertFields) (nid : String), groupsParentOk s = true →
      groupsParentOk (upsertOrg s uid orgId orgType d nid).1 = true) := by
  refine ⟨?_, ?_, ?_⟩
  · intro s uid d nid t hd ht
    unfold upsertOrg
    rw [if_neg (fun h => h (Or.inr (Or.inr (Or.inr rfl))))]
    dsimp only
    rw [if_pos rfl, hd]
    dsimp only
    rw [if_pos ht]
  · intro s uid oid d nid t old hlook hd ht
    unfold upsertOrg
    rw [if_neg (fun h => h (Or.inr (Or.inr (Or.inr rfl))))]
    dsimp only
    rw [hlook]
    dsimp only
    rw [if_pos rfl, hd]
    dsimp only
    rw [if_pos ht]
  · intro s uid orgId orgType d nid hinv
    unfold upsertOrg
    by_cases hvalid : orgType = "districts" ∨ orgType = "schools" ∨
        orgType = "classes" ∨ orgType = "groups"
    · rw [if_neg (not_not_intro hvalid)]
      cases orgId with
      | some oid =>
        dsimp only
        cases hlook : lookupOrgColl s orgType oid with
        | none => exact hinv
        | some old =>
          dsimp only
          by_cases horg : orgType = "groups"
          · rw [if_pos horg]
            cases hdt : d.parentOrgType with
            | some t =>
              dsimp only
              by_cases ht : t ≠ "district"
              · rw [if_pos ht]; exact hinv
              · rw [if_neg ht]
                dsimp only
                refine groupsParentOk_updateCommit s orgType oid old d hinv
                  ?_
                intro _ t' hdt'
                rw [hdt] at hdt'
                cases hdt'
                exact not_not.mp ht
            | none =>
              dsimp only
              refine groupsParentOk_updateCommit s orgType oid old d hinv ?_
              intro _ t' hdt'
              rw [hdt] at hdt'
              cases hdt'
          · rw [if_neg horg]
            refine groupsParentOk_updateCommit s orgType oid old d hinv ?_
            intro h
            exact absurd h horg
      | none =>
        dsimp only
        by_cases horg : orgType = "groups"
        · rw [if_pos horg]
          cases hdt : d.parentOrgType with
          | some t =>
            dsimp only
            by_cases ht : t ≠ "district"
            · rw [if_pos ht]; exact hinv
            · rw [if_neg ht]
              dsimp only
              refine groupsParentOk_createCommit s uid orgType d nid hvalid
                hinv ?_
              intro _ t' hdt'
              rw [hdt] at hdt'
              cases hdt'
              exact not_not.mp ht
          | none =>
            dsimp only
            refine groupsParentOk_createCommit s uid orgType d nid hvalid
              hinv ?_
            intro _ t' hdt'
            rw [hdt] at hdt'
            cases hdt'
        · rw [if_neg horg]
          refine groupsParentOk_createCommit s uid orgType d nid hvalid hinv
            ?_
          intro h
          exact absurd h horg
    · rw [if_pos hvalid]
      exact hinv

/-- C9 witness: the school-parented cohort request is rejected unchanged on
both paths, and a valid cohort creation preserves the invariant on the
concrete store. -/
theorem c9_witness :
    upsertOrg sampleStoreGroups "c1" none "groups" badGroupFields "g2" =
      (sampleStoreGroups, OrgUpsertResult.err ErrCode.invalidArgument) ∧
    upsertOrg sampleStoreGroups "c1" (some "g1") "groups" badGroupFields
      "g2" =
      (sampleStoreGroups, OrgUpsertResult.err ErrCode.invalidArgument) ∧
    groupsParentOk (upsertOrg sampleStoreGroups "c1" none "groups"
      goodGroupFields "g2").1 = true :=
  ⟨c9_cohort_parent_invariant.1 sampleStoreGroups "c1" badGroupFields "g2"
    "school" rfl (by decide),
   c9_cohort_parent_invariant.2.1 sampleStoreGroups "c1" "g1" badGroupFields
    "g2" "school" sampleGroupDoc (by decide) rfl (by decide),
   c9_cohort_parent_invariant.2.2 sampleStoreGroups "c1" none "groups"
    goodGroupFields "g2" (by decide)⟩

/-! ## Claim C3 -/

theorem listDiff_mem (l1 l2 : List String) (x : String) :
    x ∈ listDiff l1 l2 ↔ x ∈ l1 ∧ x ∉ l2 := by
  simp [listDiff]

theorem diffKindSpec (p c : List String) (x : String) :
    (x ∈ listDiff p c ↔ x ∈ p ∧ x ∉ c) ∧
    (x ∈ listDiff c p ↔ x ∈ c ∧ x ∉ p) ∧
    ¬(x ∈ listDiff c p ∧ x ∈ listDiff p c) ∧
    ((x ∈ p ∨ x ∈ listDiff c p) ↔ (x ∈ c ∨ x ∈ listDiff p c)) := by
  have h1 := listDiff_mem p c x
  have h2 := listDiff_mem c p x
  refine ⟨h1, h2, ?_, ?_⟩
  · rintro ⟨ha, hr⟩
    exact (h1.mp hr).2 (h2.mp ha).1
  · constructor
    · rintro (hp | ha)
      · by_cases hc : x ∈ c
        · exact Or.inl hc
        · exact Or.inr (h1.mpr ⟨hp, hc⟩)
      · exact Or.inl (h2.mp ha).1
    · rintro (hc | hr)
      · by_cases hp : x ∈ p
        · exact Or.inl hp
        · exact Or.inr (h2.mpr ⟨hc, hp⟩)
      · exact Or.inl (h1.mp hr).1

/-- C3: the computed removed set is prev minus curr and the computed added
set is curr minus prev, element-wise per unit kind; hence added and removed
are disjoint and prev ∪ added equals curr ∪ removed as sets, in every
kind. -/
theorem c3_diff_completeness (prev curr : OrgsList) (x : String) :
    ((x ∈ (computedRemovedOrgs prev curr).districts ↔
        x ∈ prev.districts ∧ x ∉ curr.districts) ∧
     (x ∈ (computedAddedOrgs prev curr).districts ↔
        x ∈ curr.districts ∧ x ∉ prev.districts) ∧
     ¬(x ∈ (computedAddedOrgs prev curr).districts ∧
        x ∈ (computedRemovedOrgs prev curr).districts) ∧
     ((x ∈ prev.districts ∨ x ∈ (computedAddedOrgs prev curr).districts) ↔
      (x ∈ curr.districts ∨ x ∈ (computedRemovedOrgs prev curr).districts))) ∧
    ((x ∈ (computedRemovedOrgs prev curr).schools ↔
        x ∈ prev.schools ∧ x ∉ curr.schools) ∧
     (x ∈ (computedAddedOrgs prev curr).schools ↔
        x ∈ curr.schools ∧ x ∉ prev.schools) ∧
     ¬(x ∈ (computedAddedOrgs prev curr).schools ∧
        x ∈ (computedRemovedOrgs prev curr).schools) ∧
     ((x ∈ prev.schools ∨ x ∈ (computedAddedOrgs prev curr).schools) ↔
      (x ∈ curr.schools ∨ x ∈ (computedRemovedOrgs prev curr).schools))) ∧
    ((x ∈ (computedRemovedOrgs prev curr).classes ↔
        x ∈ prev.classes ∧ x ∉ curr.classes) ∧
     (x ∈ (computedAddedOrgs prev curr).classes ↔
        x ∈ curr.classes ∧ x ∉ prev.classes) ∧
     ¬(x ∈ (computedAddedOrgs prev curr).classes ∧
        x ∈ (computedRemovedOrgs prev curr).classes) ∧
     ((x ∈ prev.classes ∨ x ∈ (computedAddedOrgs prev curr).classes) ↔
      (x ∈ curr.classes ∨ x ∈ (computedRemovedOrgs prev curr).classes))) ∧
    ((x ∈ (computedRemovedOrgs prev curr).groups ↔
        x ∈ prev.groups ∧ x ∉ curr.groups) ∧
     (x ∈ (computedAddedOrgs prev curr).groups ↔
        x ∈ curr.groups ∧ x ∉ prev.groups) ∧
     ¬(x ∈ (computedAddedOrgs prev curr).groups ∧
        x ∈ (computedRemovedOrgs prev curr).groups) ∧
     ((x ∈ prev.groups ∨ x ∈ (computedAddedOrgs prev curr).groups) ↔
      (x ∈ curr.groups ∨ x ∈ (computedRemovedOrgs prev curr).groups))) :=
  ⟨diffKindSpec prev.districts curr.districts x,
   diffKindSpec prev.schools curr.schools x,
   diffKindSpec prev.classes curr.classes x,
   diffKindSpec prev.groups curr.groups x⟩

/-! ## Claim C10 -/

/-- C10: a trigger event whose before and after snapshots are both absent
returns status ok and leaves the store entirely unchanged; the outcome is
the same for every store, so the handler performs no store reads on this
path. -/
theorem c10_trigger_degenerate_noop (s : Store) (administrationId : String) :
    syncAssignmentsOnAdministrationUpdateEventHandler s administrationId none
      none = (s, TriggerPath.okNoData) := rfl

/-! ## Claim C8 -/

theorem stripAssignments_administrationsCreated (aids : List String)
    (u : UserDoc) :
    (stripAssignments aids u).administrationsCreated =
      u.administrationsCreated := rfl

theorem lookupUser_removeCreator (s : Store) (cb aid u : String) :
    lookupUser (removeAdministrationFromCreator s cb aid) u =
      (lookupUser s u).map (fun v =>
        if u = cb then
          { v with
            administrationsCreated :=
              v.administrationsCreated.filter (fun i => !(i == aid)) }
        else v) := by
  simp only [removeAdministrationFromCreator, lookupUser, updateEntry]
  exact lookupIn_mapEntries _ _ _

/-- C8: the administration trigger dispatches on snapshot presence — absent
before and present after takes the creation path
(`processNewAdministration`); present before and absent after takes the
deletion path, which removes the administration id from the creator's
`administrationsCreated` index (when a `createdBy` is stored) before
removing the previous orgs' assignments, so the final store's creator index
no longer holds the id; both present takes the modification path. -/
theorem c8_trigger_dispatch (s : Store) (aid : String) :
    (∀ c, syncAssignmentsOnAdministrationUpdateEventHandler s aid none
      (some c) = (processNewAdministration s aid c, TriggerPath.created)) ∧
    (∀ p, syncAssignmentsOnAdministrationUpdateEventHandler s aid (some p)
      none =
      (processRemovedAdministration
        (match p.createdBy with
         | some cb => removeAdministrationFromCreator s cb aid
         | none => s) aid (adminOrgs p), TriggerPath.removed)) ∧
    (∀ p cb cd, p.createdBy = some cb →
      lookupUser (syncAssignmentsOnAdministrationUpdateEventHandler s aid
        (some p) none).1 cb = some cd → aid ∉ cd.administrationsCreated) ∧
    (∀ p c, syncAssignmentsOnAdministrationUpdateEventHandler s aid (some p)
      (some c) =
      (processModifiedAdministration s aid p c, TriggerPath.modified)) := by
  refine ⟨fun c => rfl, fun p => rfl, ?_, fun p c => rfl⟩
  intro p cb cd hcb hcd
  simp only [syncAssignmentsOnAdministrationUpdateEventHandler, hcb] at hcd
  unfold processRemovedAdministration at hcd
  rw [lookupUser_removeOrgs] at hcd
  rw [lookupUser_removeCreator] at hcd
  cases hl : lookupUser s cb with
  | none => rw [hl] at hcd; simp at hcd
  | some v =>
    rw [hl] at hcd
    simp only [Option.map_some', Option.map_map, Function.comp_apply,
      Option.some_inj] at hcd
    subst hcd
    by_cases hm : cb ∈ getUsersFromOrgs
        (removeAdministrationFromCreator s cb aid) (adminOrgs p) true
    · rw [if_pos hm, stripAssignments_administrationsCreated]
      simp only [eq_self_iff_true, if_true]
      exact mem_filter_beq_self aid _
    · rw [if_neg hm]
      simp only [eq_self_iff_true, if_true]
      exact mem_filter_beq_self aid _

/-- C8 witness: on the concrete store, a creation event dispatches to
`processNewAdministration`, and after a deletion event the creator's index
no longer holds the administration id. -/
theorem c8_witness :
    syncAssignmentsOnAdministrationUpdateEventHandler sampleStore "a1" none
      (some sampleAdminDoc) =
      (processNewAdministration sampleStore "a1" sampleAdminDoc,
       TriggerPath.created) ∧
    "a1" ∉ ({ sampleCreator with
      administrationsCreated := ([] : List String) } : UserDoc).administrationsCreated := by
  refine ⟨(c8_trigger_dispatch sampleStore "a1").1 sampleAdminDoc, ?_⟩
  exact (c8_trigger_dispatch sampleStore "a1").2.2.1 sampleAdminDoc "c1" _
    (by decide) (by decide)

end LevanteSync
